import Mathlib

/-!
Verification of the docsai ingestion pipeline and hybrid retrieval engine.

This file gives a shallow embedding, in Lean 4, of the core functions of the
docsai repository (crawler, change detector, classifier, chunker, ingestion
manager, rank fusion) and proves properties of the embedded definitions.

External libraries used by the Python code (regular-expression engine,
`hashlib`, `urllib`, `requests`, BeautifulSoup, ChromaDB, the robots.txt
rule evaluator of the standard library) are modelled as explicit function
parameters; everything written in the repository itself is translated
directly.

Python string primitives (`in`, `split`, `join`, `strip`, `lower`, slicing)
are implemented over `List Char` by structural recursion so that all
definitions evaluate inside the kernel.
-/

deriving instance DecidableEq for Except

namespace DocsAI

/-- Whether `pat` is a leading segment of `s` (both as character lists). -/
def startsWithL : List Char → List Char → Bool
  | _, [] => true
  | [], _ :: _ => false
  | c :: cs, d :: ds => c == d && startsWithL cs ds

/-- Whether `pat` occurs somewhere inside `s` (character lists). -/
def containsL : List Char → List Char → Bool
  | s, pat =>
    if startsWithL s pat then true
    else
      match s with
      | [] => false
      | _ :: t => containsL t pat

/-- Python `sub in s` substring test. -/
def pyIn (sub s : String) : Bool :=
  containsL s.data sub.data

/-- Python `s.startswith(pat)`. -/
def pyStartsWith (s pat : String) : Bool :=
  startsWithL s.data pat.data

/-- Splits a character list on whitespace runs, dropping empty pieces
(the behaviour of Python `s.split()` with no separator). -/
def wsSplitFold (cs : List Char) : List (List Char) :=
  let r := cs.foldl
    (fun (acc : List (List Char) × List Char) c =>
      if c.isWhitespace then
        if acc.2 = [] then (acc.1, []) else (acc.1 ++ [acc.2.reverse], [])
      else (acc.1, c :: acc.2))
    ([], [])
  if r.2 = [] then r.1 else r.1 ++ [r.2.reverse]

/-- Python `s.split()` with no separator. -/
def pySplitWs (s : String) : List String :=
  (wsSplitFold s.data).map (fun w => ⟨w⟩)

/-- Splits a character list at every occurrence of the character `sep`,
keeping empty pieces (Python `s.split(sep)` for a one-character separator). -/
def splitCharFold (sep : Char) (cs : List Char) : List (List Char) :=
  let r := cs.foldl
    (fun (acc : List (List Char) × List Char) c =>
      if c == sep then (acc.1 ++ [acc.2.reverse], []) else (acc.1, c :: acc.2))
    ([], [])
  r.1 ++ [r.2.reverse]

/-- Python `s.split(sep)` for a one-character separator. -/
def pySplitChar (s : String) (sep : Char) : List String :=
  (splitCharFold sep s.data).map (fun w => ⟨w⟩)

/-- Python `sep.join(parts)`. -/
def joinWith (sep : String) (parts : List String) : String :=
  match parts with
  | [] => ""
  | p :: ps => ps.foldl (fun acc q => acc ++ sep ++ q) p

/-- Python `' '.join(parts)`. -/
def spaceJoin (parts : List String) : String :=
  joinWith " " parts

/-- Python `s[:n]` (first `n` code points). -/
def pyTake (s : String) (n : Nat) : String :=
  ⟨s.data.take n⟩

/-- Python `len(s)` (number of code points). -/
def pyLen (s : String) : Nat :=
  s.data.length

/-- Python `s.lower()` (ASCII case folding suffices for the embedded code). -/
def pyLower (s : String) : String :=
  ⟨s.data.map Char.toLower⟩

/-- Python `s.strip()`. -/
def pyStrip (s : String) : String :=
  ⟨((s.data.dropWhile Char.isWhitespace).reverse.dropWhile Char.isWhitespace).reverse⟩

/-- Python list slice `l[i:e]` for a non-negative start `i` and an arbitrary
(integer, possibly negative) end `e`. -/
def pySlice {α : Type} (l : List α) (i : Nat) (e : Int) : List α :=
  let n := l.length
  let en : Int := if e < 0 then (n : Int) + e else e
  let stop : Nat := min (max en 0).toNat n
  (l.take stop).drop i

/-- Truthiness of an optional string in Python (`None` and `""` are falsy). -/
def pyTruthyS (s : Option String) : Bool :=
  match s with
  | none => false
  | some s => s ≠ ""

end DocsAI

namespace DocsAI.Ingest

/-!
`src/docsai/retriever/ingest.py`.

`hashlib.sha1(...).hexdigest()` is external; the functions below take the
hash as a parameter `h : String → String` (the code's `_hash`).
-/

/-- Loop body of the `while i < len(words)` loop of `_chunk`
(`ingest.py` lines 49-51): emit `words[i:i+tok]` and advance `i` by `step`.
The fuel argument bounds the iteration count; since `step ≥ 1` at every call
site and `i` starts at 0, `words.length` units of fuel always suffice. -/
def chunkLoop (words : List String) (tok step : Nat) : Nat → Nat → List String
  | 0, _ => []
  | fuel + 1, i =>
    if i < words.length then
      spaceJoin ((words.drop i).take tok) :: chunkLoop words tok step fuel (i + step)
    else []

/-- `_chunk(md, tok, overlap)` from `ingest.py` lines 43-52: split into words,
return no chunks below 50 words, otherwise emit sliding windows of `tok`
words advancing by `max (tok - overlap) 1` words. -/
def ingestChunk (md : String) (tok overlap : Nat) : List String :=
  let words := pySplitWs md
  if words.length < 50 then []
  else
    let step := max (tok - overlap) 1
    chunkLoop words tok step words.length 0

/-- One indexable document produced by `ingest_profile` for a web source:
the chunk identifier, the stored text and the metadata dictionary
(`ingest.py` lines 243-245). -/
structure WebDoc where
  cid : String
  text : String
  source_url : String
  chunk_index : Nat
  source_type : String
deriving DecidableEq

/-- The body of the `for url, html in raw.items()` loop of `ingest_profile`
(`ingest.py` lines 231-246): convert to markdown, drop short pages, chunk,
and emit one document per sufficiently long chunk with identifier
`url_hash + "_" + idx + "_" + _hash(chunk)[:8]`. `h` is `_hash`; `htmlToMd`
is `_html_to_md` (BeautifulSoup/markdownify, external). -/
def pageDocs (h htmlToMd : String → String) (chunkTokens chunkOverlap minTextLen : Nat)
    (url html : String) : List WebDoc :=
  let md := htmlToMd html
  if md = "" ∨ pyLen md < 100 then []
  else
    let chunks := ingestChunk md chunkTokens chunkOverlap
    if chunks = [] then []
    else
      let url_hash := h url
      chunks.enum.filterMap fun p =>
        if pyLen p.2 < minTextLen then none
        else some
          { cid := url_hash ++ "_" ++ toString p.1 ++ "_" ++ pyTake (h p.2) 8
            text := p.2 ++ "\n\n(Source: " ++ url ++ ")"
            source_url := url
            chunk_index := p.1
            source_type := "web" }

/-- The full document list built by `ingest_profile` for a web source from the
crawl result `raw` (an association list `url ↦ html`, in insertion order). -/
def ingestWebDocs (h htmlToMd : String → String) (chunkTokens chunkOverlap minTextLen : Nat)
    (raw : List (String × String)) : List WebDoc :=
  raw.flatMap fun p => pageDocs h htmlToMd chunkTokens chunkOverlap minTextLen p.1 p.2

/-- A 50-word, 149-character sample document used to instantiate theorems on
concrete inputs. -/
def mdSample : String :=
  "aa ab ac ad ae af ag ah ai aj ak al am an ao ap aq ar as at au av aw ax ay " ++
  "az ba bb bc bd be bf bg bh bi bj bk bl bm bn bo bp bq br bs bt bu bv bw bx"

end DocsAI.Ingest

namespace DocsAI.DocIntel

/-!
`src/docsai/document_intelligence.py`.

Calls to the `re` module are external and appear as function parameters:
`sectionSplit` is `re.split(section_pattern, ·, flags=re.MULTILINE)`,
`findTurns` is `re.findall(turn_pattern, ·, re.MULTILINE | re.DOTALL)`,
`messageSplit` is `re.split(message_boundary, ·)`, and `reSearch` /
`reMatch` / `reSplitCap` are `re.search(p, ·)` / `re.match(p, ·)` /
`re.split('(' + p + ')', ·)` keyed by the pattern string.  When a pattern
does not occur, `re.split` returns the whole string as a single piece and
`re.findall` returns the empty list.
-/

/-- One chunk dictionary produced by `SmartChunker`; optional fields model
keys that only some strategies set. -/
structure DChunk where
  text : String
  type : String
  boundary : Option String := none
  start_idx : Option Int := none
  end_idx : Option Int := none
  speakers : Option String := none
  endpoint : Option (Option String) := none
  chapter : Option (Option String) := none
  record_count : Option Nat := none
  has_timestamps : Option Bool := none
deriving DecidableEq

/-- Loop body of `chunk_sliding_window`'s `for i in range(0, len(words), step)`
(`document_intelligence.py` lines 294-303) for a positive step; the fuel
argument bounds the iteration count, and `words.length` units always suffice
because `i` advances by at least 1 per iteration. -/
def swLoop (words : List String) (chunk_size : Int) (step : Nat) : Nat → Nat → List DChunk
  | 0, _ => []
  | fuel + 1, i =>
    if i < words.length then
      { text := spaceJoin (pySlice words i ((i : Int) + chunk_size))
        type := "sliding_window"
        start_idx := some (i : Int)
        end_idx := some (min ((i : Int) + chunk_size) (words.length : Int)) } ::
        swLoop words chunk_size step fuel (i + step)
    else []

/-- `SmartChunker.chunk_sliding_window` (`document_intelligence.py` lines
289-305).  `range(0, n, step)` raises `ValueError` when `step = 0` and is
empty when `step < 0`, which the `Except` result reflects. -/
def chunk_sliding_window (content : String) (chunk_size overlap : Int) :
    Except String (List DChunk) :=
  let words := pySplitWs content
  let step := chunk_size - overlap
  if step = 0 then .error "ValueError: range() arg 3 must not be zero"
  else if step < 0 then .ok []
  else .ok (swLoop words chunk_size step.toNat words.length 0)

/-- Python `l[-k:]` for `k > 0`. -/
def pyLastSlice {α : Type} (l : List α) (k : Int) : List α :=
  l.drop (l.length - k.toNat)

/-- `SmartChunker.chunk_by_sections` (`document_intelligence.py` lines
307-347), with the `re.split` on the section pattern as a parameter. -/
def chunk_by_sections (sectionSplit : String → List String) (content : String)
    (chunk_size overlap : Int) : Except String (List DChunk) :=
  let sections := sectionSplit content
  let r := sections.foldl
    (fun (acc : List DChunk × List String × Int) sec =>
      let chunks := acc.1
      let current_chunk := acc.2.1
      let current_size := acc.2.2
      let section_words := pySplitWs sec
      let section_size : Int := section_words.length
      let acc2 : List DChunk × List String × Int :=
        if current_size + section_size > chunk_size ∧ current_chunk ≠ [] then
          let chunks := chunks ++
            [{ text := spaceJoin current_chunk, type := "section",
               boundary := some "section_end" }]
          let current_chunk :=
            if overlap > 0 ∧ (current_chunk.length : Int) > overlap then
              pyLastSlice current_chunk overlap
            else []
          (chunks, current_chunk, (current_chunk.length : Int))
        else (chunks, current_chunk, current_size)
      (acc2.1, acc2.2.1 ++ section_words, acc2.2.2 + section_size))
    ([], [], 0)
  let chunks :=
    if r.2.1 ≠ [] then
      r.1 ++ [{ text := spaceJoin r.2.1, type := "section",
                boundary := some "document_end" }]
    else r.1
  if chunks ≠ [] then .ok chunks else chunk_sliding_window content chunk_size overlap

/-- Python set insertion (`set.add`), modelled with insertion order retained
(the rendering order of a Python `set` is unspecified; the proofs below never
depend on it). -/
def setAdd (l : List String) (s : String) : List String :=
  if s ∈ l then l else l ++ [s]

/-- `SmartChunker.chunk_by_conversation` (`document_intelligence.py` lines
349-395), with `re.findall` on the speaker-turn pattern as a parameter. -/
def chunk_by_conversation (findTurns : String → List (String × String))
    (content : String) (chunk_size overlap : Int) : Except String (List DChunk) :=
  let turns := findTurns content
  if turns = [] then chunk_sliding_window content chunk_size overlap
  else
    let r := turns.foldl
      (fun (acc : List DChunk × List String × List String × Int) turn =>
        let speaker := turn.1
        let text := turn.2
        let chunks := acc.1
        let current_chunk := acc.2.1
        let current_speakers := acc.2.2.1
        let current_size := acc.2.2.2
        let turn_size : Int := (pySplitWs text).length
        let acc2 : List DChunk × List String × List String × Int :=
          if current_size + turn_size > chunk_size ∧ current_chunk ≠ [] then
            let chunks := chunks ++
              [{ text := joinWith "\n" current_chunk, type := "conversation",
                 speakers := some (joinWith ", " current_speakers) }]
            if overlap > 0 then
              (chunks, [speaker ++ ": " ++ pyTake text overlap.toNat], [speaker],
                min overlap turn_size)
            else (chunks, [], [], 0)
          else (chunks, current_chunk, current_speakers, current_size)
        (acc2.1, acc2.2.1 ++ [speaker ++ ": " ++ text],
          setAdd acc2.2.2.1 speaker, acc2.2.2.2 + turn_size))
      ([], [], [], 0)
    let chunks :=
      if r.2.1 ≠ [] then
        r.1 ++ [{ text := joinWith "\n" r.2.1, type := "conversation",
                  speakers := some (joinWith ", " r.2.2.1) }]
      else r.1
    .ok chunks

/-- `SmartChunker.chunk_by_messages` (`document_intelligence.py` lines
397-430), with `re.split` on the message-boundary pattern as a parameter. -/
def chunk_by_messages (messageSplit : String → List String) (content : String)
    (chunk_size overlap : Int) : Except String (List DChunk) :=
  let messages := messageSplit content
  let r := messages.foldl
    (fun (acc : List DChunk × List String × Int) msg =>
      let msg_size : Int := (pySplitWs msg).length
      let acc2 : List DChunk × List String × Int :=
        if acc.2.2 + msg_size > chunk_size ∧ acc.2.1 ≠ [] then
          (acc.1 ++ [{ text := spaceJoin acc.2.1, type := "message",
                       boundary := some "message_end" }], [], 0)
        else acc
      if pyStrip msg ≠ "" then (acc2.1, acc2.2.1 ++ [msg], acc2.2.2 + msg_size)
      else acc2)
    ([], [], 0)
  let chunks :=
    if r.2.1 ≠ [] then
      r.1 ++ [{ text := spaceJoin r.2.1, type := "message",
                boundary := some "thread_end" }]
    else r.1
  if chunks ≠ [] then .ok chunks else chunk_sliding_window content chunk_size overlap

/-- The endpoint patterns of `chunk_by_endpoints`
(`document_intelligence.py` lines 435-439). -/
def endpointPatternList : List String :=
  ["^(GET|POST|PUT|DELETE|PATCH)\\s+/\\S+", "^### .+ Endpoint", "^## /\\S+"]

/-- `SmartChunker.chunk_by_endpoints` (`document_intelligence.py` lines
432-472). -/
def chunk_by_endpoints (reSearch reMatch : String → String → Bool)
    (reSplitCap : String → String → List String)
    (sectionSplit : String → List String) (content : String)
    (chunk_size overlap : Int) : Except String (List DChunk) :=
  match endpointPatternList.find? (fun p => reSearch p content) with
  | some pattern =>
    let endpoints := reSplitCap pattern content
    let r := endpoints.foldl
      (fun (acc : List DChunk × List String × Option String) part =>
        let chunks := acc.1
        let current_chunk := acc.2.1
        let current_endpoint := acc.2.2
        if reMatch pattern part then
          let chunks :=
            if current_chunk ≠ [] then
              chunks ++ [{ text := joinWith "\n" current_chunk,
                           type := "api_endpoint", endpoint := some current_endpoint }]
            else chunks
          (chunks, [part], some (pyStrip part))
        else (chunks, current_chunk ++ [part], current_endpoint))
      ([], [], none)
    .ok (if r.2.1 ≠ [] then
          r.1 ++ [{ text := joinWith "\n" r.2.1, type := "api_endpoint",
                    endpoint := some r.2.2 }]
        else r.1)
  | none => chunk_by_sections sectionSplit content chunk_size overlap

/-- The chapter patterns of `chunk_by_chapters`
(`document_intelligence.py` lines 476-480). -/
def chapterPatternList : List String :=
  ["^Chapter\\s+\\d+", "^CHAPTER\\s+[IVX]+", "^\\d+\\.\\s+[A-Z]"]

/-- Body of the `for i in range(0, len(chapters), 2)` loop of
`chunk_by_chapters` (`document_intelligence.py` lines 489-506). -/
def chapterLoop (chapters : List String) (chunk_size overlap : Int) :
    Except String (List DChunk) :=
  ((List.range ((chapters.length + 1) / 2)).map (· * 2)).foldlM
    (fun chunks i =>
      if i + 1 < chapters.length then
        let chapter_title : Option String :=
          if i > 0 then some (chapters.getD i "") else none
        let chapter_content :=
          if i = 0 then chapters.getD (i + 1) ""
          else chapters.getD i "" ++ chapters.getD (i + 1) ""
        if ((pySplitWs chapter_content).length : Int) > chunk_size then
          match chunk_sliding_window chapter_content chunk_size overlap with
          | .error e => .error e
          | .ok sub =>
            .ok (chunks ++ sub.map fun c =>
              { c with chapter := some chapter_title, type := "chapter_section" })
        else
          .ok (chunks ++ [{ text := chapter_content, type := "chapter",
                            chapter := some chapter_title }])
      else .ok chunks)
    []

/-- `SmartChunker.chunk_by_chapters` (`document_intelligence.py` lines
474-510). -/
def chunk_by_chapters (reSearch : String → String → Bool)
    (reSplitCap : String → String → List String)
    (sectionSplit : String → List String) (content : String)
    (chunk_size overlap : Int) : Except String (List DChunk) :=
  match chapterPatternList.find? (fun p => reSearch p content) with
  | some pattern => chapterLoop (reSplitCap pattern content) chunk_size overlap
  | none => chunk_by_sections sectionSplit content chunk_size overlap

/-- The marker test of `chunk_by_records` (`document_intelligence.py` line
518): more than one line and each of the first five lines contains a comma
or a tab. -/
def recordsLike (content : String) : Bool :=
  let lines := pySplitChar content '\n'
  lines.length > 1 && (lines.take 5).all (fun line => pyIn "," line || pyIn "\t" line)

/-- `SmartChunker.chunk_by_records` (`document_intelligence.py` lines
512-544); this strategy uses no regular expressions and is embedded fully. -/
def chunk_by_records (content : String) (chunk_size overlap : Int) :
    Except String (List DChunk) :=
  let lines := pySplitChar content '\n'
  if recordsLike content then
    let header := lines.headD ""
    let r := (lines.drop 1).foldl
      (fun (acc : List DChunk × List String) line =>
        let current_chunk := acc.2 ++ [line]
        if ((pySplitWs (joinWith "\n" current_chunk)).length : Int) > chunk_size then
          (acc.1 ++ [{ text := header ++ "\n" ++ joinWith "\n" current_chunk,
                       type := "records", record_count := some current_chunk.length }], [])
        else (acc.1, current_chunk))
      ([], [])
    .ok (if r.2 ≠ [] then
          r.1 ++ [{ text := header ++ "\n" ++ joinWith "\n" r.2,
                    type := "records", record_count := some r.2.length }]
        else r.1)
  else chunk_sliding_window content chunk_size overlap

/-- The timestamp patterns of `chunk_by_timestamps`
(`document_intelligence.py` lines 549-553). -/
def tsPatternList : List String :=
  ["(\\d{2}:\\d{2}:\\d{2})", "(\\[\\d{2}:\\d{2}\\])", "(\\d{2}:\\d{2})"]

/-- `SmartChunker.chunk_by_timestamps` (`document_intelligence.py` lines
546-590). -/
def chunk_by_timestamps (reSearch reMatch : String → String → Bool)
    (reSplitCap : String → String → List String) (content : String)
    (chunk_size overlap : Int) : Except String (List DChunk) :=
  match tsPatternList.find? (fun p => reSearch p content) with
  | some pattern =>
    let parts := reSplitCap pattern content
    let r := parts.foldl
      (fun (acc : List DChunk × List String × Option String) part =>
        if reMatch pattern part then (acc.1, acc.2.1, some part)
        else
          let piece :=
            match acc.2.2 with
            | some t => t ++ " " ++ part
            | none => part
          let current_chunk := acc.2.1 ++ [piece]
          if ((pySplitWs (spaceJoin current_chunk)).length : Int) > chunk_size then
            (acc.1 ++ [{ text := spaceJoin current_chunk, type := "timed_content",
                         has_timestamps := some true }], [], acc.2.2)
          else (acc.1, current_chunk, acc.2.2))
      ([], [], none)
    .ok (if r.2.1 ≠ [] then
          r.1 ++ [{ text := spaceJoin r.2.1, type := "timed_content",
                    has_timestamps := some true }]
        else r.1)
  | none => chunk_sliding_window content chunk_size overlap

/-- The regex-engine operations consumed by `SmartChunker`, bundled. -/
structure ReEnv where
  sectionSplit : String → List String
  findTurns : String → List (String × String)
  messageSplit : String → List String
  reSearch : String → String → Bool
  reMatch : String → String → Bool
  reSplitCap : String → String → List String

/-- `SmartChunker.chunk` (`document_intelligence.py` lines 280-287): the
name-keyed strategy dispatch of `self.strategies`, defaulting to
`chunk_sliding_window` for unknown strategy names. -/
def smartChunk (env : ReEnv) (content strategy : String) (chunk_size overlap : Int) :
    Except String (List DChunk) :=
  if strategy = "sliding_window" then chunk_sliding_window content chunk_size overlap
  else if strategy = "section_aware" then
    chunk_by_sections env.sectionSplit content chunk_size overlap
  else if strategy = "conversation_aware" then
    chunk_by_conversation env.findTurns content chunk_size overlap
  else if strategy = "message_boundary" then
    chunk_by_messages env.messageSplit content chunk_size overlap
  else if strategy = "endpoint_aware" then
    chunk_by_endpoints env.reSearch env.reMatch env.reSplitCap env.sectionSplit
      content chunk_size overlap
  else if strategy = "chapter_aware" then
    chunk_by_chapters env.reSearch env.reSplitCap env.sectionSplit
      content chunk_size overlap
  else if strategy = "record_aware" then chunk_by_records content chunk_size overlap
  else if strategy = "time_aware" then
    chunk_by_timestamps env.reSearch env.reMatch env.reSplitCap content chunk_size overlap
  else chunk_sliding_window content chunk_size overlap

/-- One entry of `DocumentIntelligence.self.categories`
(`document_intelligence.py` lines 24-67). -/
structure CatCfg where
  name : String
  patterns : List String
  extensions : List String
  chunk_strategy : String
  chunk_size : Nat
deriving DecidableEq

/-- The category table of `DocumentIntelligence.__init__`, in dictionary
insertion order. -/
def categories : List CatCfg :=
  [{ name := "technical",
     patterns := ["manual", "guide", "documentation", "readme", "install", "setup", "config"],
     extensions := [".md", ".txt", ".pdf"],
     chunk_strategy := "section_aware", chunk_size := 1000 },
   { name := "conversation",
     patterns := ["transcript", "chat", "conversation", "meeting", "call", "interview"],
     extensions := [".txt", ".json", ".csv"],
     chunk_strategy := "conversation_aware", chunk_size := 800 },
   { name := "correspondence",
     patterns := ["email", "memo", "letter", "message"],
     extensions := [".eml", ".msg", ".txt"],
     chunk_strategy := "message_boundary", chunk_size := 600 },
   { name := "reference",
     patterns := ["api", "reference", "specification", "schema"],
     extensions := [".json", ".yaml", ".md"],
     chunk_strategy := "endpoint_aware", chunk_size := 500 },
   { name := "literature",
     patterns := ["book", "chapter", "article", "paper", "journal"],
     extensions := [".epub", ".pdf", ".txt"],
     chunk_strategy := "chapter_aware", chunk_size := 1200 },
   { name := "data",
     patterns := ["report", "analysis", "statistics", "metrics", "log"],
     extensions := [".csv", ".json", ".log", ".txt"],
     chunk_strategy := "record_aware", chunk_size := 400 },
   { name := "media",
     patterns := ["subtitle", "caption", "lyrics", "script"],
     extensions := [".srt", ".vtt", ".txt"],
     chunk_strategy := "time_aware", chunk_size := 300 }]

/-- Index of the last `.` in a character list, if any. -/
def lastDotIdx (cs : List Char) : Option Nat :=
  cs.enum.foldl (fun acc p => if p.2 == '.' then some p.1 else acc) none

/-- `pathlib.Path(name).suffix`: the final extension including the dot,
empty when the only dot is leading or trailing (CPython's
`0 < name.rfind('.') < len(name) - 1` rule). -/
def pySuffix (name : String) : String :=
  match lastDotIdx name.data with
  | none => ""
  | some i => if 0 < i ∧ i < name.data.length - 1 then ⟨name.data.drop i⟩ else ""

/-- `pathlib.Path(filepath).name`: the component after the last slash. -/
def pyPathName (filepath : String) : String :=
  (pySplitChar filepath '/').getLastD filepath

/-- `DocumentIntelligence._get_extractors` (`document_intelligence.py`
lines 122-133). -/
def getExtractors (category : String) : List String :=
  if category = "technical" then ["version", "product", "sections"]
  else if category = "conversation" then ["participants", "datetime", "topics"]
  else if category = "correspondence" then ["sender", "recipient", "date", "subject"]
  else if category = "reference" then ["endpoints", "methods", "parameters"]
  else if category = "literature" then ["author", "title", "chapters"]
  else if category = "data" then ["date_range", "metrics", "summary"]
  else if category = "media" then ["duration", "speakers", "timestamps"]
  else ["basic"]

/-- The per-category score accumulation of `categorize_document`
(`document_intelligence.py` lines 78-96): +10 per filename keyword, +5 for
extension membership, +3 per keyword in the lowered 1000-character content
sample. -/
def scoreCat (cat : CatCfg) (filenameLower contentSample suffixLower : String) : Nat :=
  let score := cat.patterns.foldl
    (fun sc p => if pyIn p filenameLower then sc + 10 else sc) 0
  let score := if suffixLower ∈ cat.extensions then score + 5 else score
  cat.patterns.foldl (fun sc p => if pyIn p contentSample then sc + 3 else sc) score

/-- The score of a category on the raw `(filepath, content)` input. -/
def scoreOf (cat : CatCfg) (filepath content : String) : Nat :=
  scoreCat cat (pyLower (pyPathName filepath)) (pyLower (pyTake content 1000))
    (pyLower (pySuffix (pyPathName filepath)))

/-- The dictionary returned by `categorize_document`. -/
structure CatResult where
  category : String
  confidence : ℚ
  chunk_strategy : String
  chunk_size : Nat
  metadata_extractors : List String
deriving DecidableEq

/-- Python `max(items, key=...)` over a non-empty list: the first item
attaining the maximal score (later items replace the best only on a strictly
greater score). -/
def pyMaxPair (x : CatCfg × Nat) (xs : List (CatCfg × Nat)) : CatCfg × Nat :=
  xs.foldl (fun b a => if a.2 > b.2 then a else b) x

/-- Placeholder head for the (never empty) category list. -/
def emptyCat : CatCfg :=
  { name := "", patterns := [], extensions := [], chunk_strategy := "", chunk_size := 0 }

/-- `DocumentIntelligence.categorize_document` (`document_intelligence.py`
lines 69-120): score every category, take the maximum, fall back to the
`general` category below the floor of 5, otherwise report the winner with
confidence `min(score / 20, 1.0)`. -/
def categorize_document (filepath content : String) : CatResult :=
  let filename_lower := pyLower (pyPathName filepath)
  let suffix_lower := pyLower (pySuffix (pyPathName filepath))
  let content_sample := pyLower (pyTake content 1000)
  let scored := categories.map (fun c => (c, scoreCat c filename_lower content_sample suffix_lower))
  let best :=
    match scored with
    | [] => (emptyCat, 0)
    | x :: xs => pyMaxPair x xs
  if best.2 < 5 then
    { category := "general", confidence := 3/10, chunk_strategy := "sliding_window",
      chunk_size := 800, metadata_extractors := ["basic"] }
  else
    { category := best.1.name, confidence := min ((best.2 : ℚ) / 20) 1,
      chunk_strategy := best.1.chunk_strategy, chunk_size := best.1.chunk_size,
      metadata_extractors := getExtractors best.1.name }

/-- The regex-engine environment for an input containing no structural
markers at all: every `re.split` returns the whole string unsplit, every
`re.findall` finds nothing, and every `re.search` / `re.match` fails —
exactly the behaviour of Python's `re` on a pattern that does not occur. -/
def noMarkerEnv : ReEnv where
  sectionSplit := fun c => [c]
  findTurns := fun _ => []
  messageSplit := fun c => [c]
  reSearch := fun _ _ => false
  reMatch := fun _ _ => false
  reSplitCap := fun _ c => [c]

end DocsAI.DocIntel

namespace DocsAI.Search

/-!
`src/docsai/retriever/search.py`.

The two rankers `_bm25_rank` and `_top_k_embed` are built on external
libraries (rank_bm25, sentence-transformers, numpy) and appear as function
parameters mapping `(question, corpus, top_k)` to a ranked index list; the
ChromaDB snapshot appears as the `count` / `ids` / `docs` / `metadatas`
arguments.  Metadata dictionaries are an opaque inhabited type whose
`default` models the empty dictionary `{}`. -/

/-- First-seen deduplication, the behaviour of
`list(dict.fromkeys(...))` (`search.py` line 48). -/
def dedupAux (seen : List Nat) : List Nat → List Nat
  | [] => []
  | x :: xs => if x ∈ seen then dedupAux seen xs else x :: dedupAux (x :: seen) xs

/-- Python `list(dict.fromkeys(l))`. -/
def pyDedup (l : List Nat) : List Nat :=
  dedupAux [] l

/-- `search(cfg, paths, question)` (`search.py` lines 20-50), its index-store
and model calls abstracted.  `ids.getD i ""` models `ids[i]`, which in the
source is only evaluated at ranker indices, all below `len(docs)`. -/
def search {M : Type} [Inhabited M]
    (bm25Rank embedRank : String → List String → Nat → List Nat)
    (count : Nat) (ids docs : List String) (metadatas : List M)
    (k_bm25 k_embed combine_top_k : Nat) (question : String) :
    List (String × String × M) :=
  if count = 0 then []
  else if docs = [] then []
  else
    let bm_idx := bm25Rank question docs (min k_bm25 docs.length)
    let em_idx := embedRank question docs (min k_embed docs.length)
    let merged := (pyDedup (bm_idx ++ em_idx)).take combine_top_k
    merged.map fun i =>
      (ids.getD i "", docs.getD i "",
        if i < metadatas.length then metadatas.getD i default else default)

end DocsAI.Search

namespace DocsAI.Updater

/-!
`src/docsai/incremental_updater.py`.

`hashlib.sha256`, the regex normalisation and the HTTP client are external:
`calcHash` stands for `calculate_content_hash` (sha256 of the normalised
body), the HEAD response appears as `Option HeadHeaders` (`none` models a
raised exception), the GET body as `Option String`, and the stored row of
`document_metadata` as `Option StoredMeta`.  Header values follow Python
truthiness: a missing or empty `ETag` / `Last-Modified` never fires a
signal; `Content-Length` is modelled already converted to an integer.
Timestamps (`detected_at`, `last_checked`) are external and omitted.
-/

/-- One row of the `document_metadata` table as read by `check_url_changes`
(`incremental_updater.py` lines 117-121): columns `content_hash`,
`last_modified`, `etag`, `content_length`. -/
structure StoredMeta where
  content_hash : String
  last_modified : Option String
  etag : Option String
  content_length : Option Int
deriving DecidableEq

/-- The response headers consulted by the HEAD request. -/
structure HeadHeaders where
  etag : Option String
  last_modified : Option String
  content_length : Option Int
deriving DecidableEq

/-- The `changes['metadata']` dictionary (`incremental_updater.py`
lines 182-188). -/
structure MetaOut where
  content_hash : String
  last_modified : Option String
  etag : Option String
  content_length : Option Int
  content : String
deriving DecidableEq

/-- The dictionary returned by `check_url_changes`; `has_changed = none`
models the explicit `None` (unknown) state set on errors. -/
structure ChangeResult where
  url : String
  has_changed : Option Bool
  is_new : Bool
  change_type : Option String := none
  confidence : ℚ := 0
  signals : Option (List String) := none
  old_hash : Option String := none
  new_hash : Option String := none
  metadata : Option MetaOut := none
  error : Option String := none
deriving DecidableEq

/-- The header signal cascade of `check_url_changes`
(`incremental_updater.py` lines 137-155): ETag mismatch (weight 0.9),
Last-Modified mismatch (0.8), Content-Length mismatch (0.5), each fired only
when a previous row exists and the header is present and truthy. -/
def signalsOf (existing : Option StoredMeta) (hdr : HeadHeaders) : List (String × ℚ) :=
  (match existing, hdr.etag with
   | some ex, some et => if et ≠ "" ∧ some et ≠ ex.etag then [("etag", 9/10)] else []
   | _, _ => []) ++
  (match existing, hdr.last_modified with
   | some ex, some lm => if lm ≠ "" ∧ some lm ≠ ex.last_modified then
       [("last_modified", 8/10)] else []
   | _, _ => []) ++
  (match existing, hdr.content_length with
   | some ex, some cl => if some cl ≠ ex.content_length then
       [("content_length", 5/10)] else []
   | _, _ => [])

/-- `max(s[1] for s in signals)`; every weight is positive, so folding from 0
agrees with Python's `max` on the non-empty lists it is applied to. -/
def maxWeight (l : List (String × ℚ)) : ℚ :=
  l.foldl (fun m s => max m s.2) 0

/-- `IncrementalUpdater.check_url_changes` (`incremental_updater.py` lines
108-195) as a pure function of the stored row, the HEAD headers and the GET
body.  The error message recorded for a raised request is abbreviated; only
its truthiness matters downstream. -/
def check_url_changes (calcHash : String → String) (url : String)
    (existing : Option StoredMeta) (head : Option HeadHeaders)
    (body : Option String) : ChangeResult :=
  let base : ChangeResult :=
    { url := url, has_changed := some false, is_new := existing.isNone }
  match head with
  | none => { base with error := some "request failed", has_changed := none }
  | some hdr =>
    let signals := signalsOf existing hdr
    if signals ≠ [] ∨ existing.isNone then
      match body with
      | none => { base with error := some "request failed", has_changed := none }
      | some content =>
        let current_hash := calcHash content
        let res : ChangeResult :=
          match existing with
          | some ex =>
            if current_hash ≠ ex.content_hash then
              { base with
                  has_changed := some true
                  old_hash := some ex.content_hash
                  new_hash := some current_hash }
            else { base with has_changed := some false }
          | none => { base with has_changed := some true, new_hash := some current_hash }
        let signals2 := signals ++
          (match existing with
           | some ex => if current_hash ≠ ex.content_hash then [("content_hash", 1)] else []
           | none => [])
        { res with
          confidence := if signals2 ≠ [] then maxWeight signals2 else 0
          signals := if signals2 ≠ [] then some (signals2.map Prod.fst) else none
          metadata := some
            { content_hash := current_hash
              last_modified := hdr.last_modified
              etag := hdr.etag
              content_length := hdr.content_length
              content := content } }
    else base

/-- The four buckets returned by `scan_for_changes`. -/
structure ScanResults where
  unchanged : List String
  updated : List String
  newUrls : List String
  errors : List String
deriving DecidableEq

/-- One row of the append-only `change_log` table (`detected_at` and the
`processed` default are external). -/
structure LogEntry where
  url : String
  change_type : String
  old_hash : Option String
  new_hash : Option String
deriving DecidableEq

/-- The loop body of `scan_for_changes` (`incremental_updater.py` lines
212-227) for one URL: classify the check result into a bucket, logging a
`content` change for previously seen URLs whose hash changed. -/
def scanStep (check : String → ChangeResult) (acc : ScanResults × List LogEntry)
    (url : String) : ScanResults × List LogEntry :=
  let info := check url
  if pyTruthyS info.error then
    ({ acc.1 with errors := acc.1.errors ++ [url] }, acc.2)
  else if info.is_new then
    ({ acc.1 with newUrls := acc.1.newUrls ++ [url] }, acc.2)
  else if info.has_changed = some true then
    ({ acc.1 with updated := acc.1.updated ++ [url] },
      acc.2 ++ [{ url := url, change_type := "content",
                  old_hash := info.old_hash, new_hash := info.new_hash }])
  else
    ({ acc.1 with unchanged := acc.1.unchanged ++ [url] }, acc.2)

/-- `IncrementalUpdater.scan_for_changes` (`incremental_updater.py` lines
197-236), returning the buckets together with the appended change log. -/
def scan_for_changes (check : String → ChangeResult) (urls : List String) :
    ScanResults × List LogEntry :=
  urls.foldl (scanStep check) (⟨[], [], [], []⟩, [])

end DocsAI.Updater

namespace DocsAI.Manager

/-!
`src/docsai/ingestion_manager.py`.

The singleton `IngestionManager` is modelled as an explicit state value; the
fields of `IngestionTask` not consulted by `start_ingestion` (progress,
counters, timestamps, error lists) are omitted, and `uuid.uuid4()` is
modelled by a counter generating fresh identifiers.  The background worker
thread mutates `status` asynchronously; the theorems below are about the
synchronous `start_ingestion` entry point, whose reads of `status` may
observe any value the worker has reached.
-/

/-- `IngestionStatus` (`ingestion_manager.py` lines 15-23). -/
inductive IngStatus where
  | idle
  | preparing
  | scanning
  | processing
  | indexing
  | completed
  | failed
  | cancelled
deriving DecidableEq

/-- The fields of `IngestionTask` consulted by the registry logic. -/
structure IngTask where
  id : String
  profile_name : String
  status : IngStatus
  cancel_requested : Bool := false
deriving DecidableEq

/-- The state of the `IngestionManager` singleton: the `tasks` dictionary (in
insertion order), the single `active_task` reference (by identifier) and the
fresh-identifier source standing in for `uuid4`. -/
structure IngestionManager where
  tasks : List (String × IngTask)
  active_task : Option String
  counter : Nat
deriving DecidableEq

/-- The terminal statuses of `start_ingestion`'s guard
(`ingestion_manager.py` line 89). -/
def terminalStatuses : List IngStatus :=
  [.completed, .failed, .cancelled]

/-- A fresh task identifier (stands in for `str(uuid.uuid4())`). -/
def freshId (n : Nat) : String :=
  "task-" ++ toString n

/-- The task-creation tail of `start_ingestion` (`ingestion_manager.py`
lines 92-109): create the task, set it `PREPARING`, register it and make it
the active task (the worker thread then runs asynchronously). -/
def startNewTask (m : IngestionManager) (profile : String) : String × IngestionManager :=
  let task_id := freshId m.counter
  let task : IngTask := { id := task_id, profile_name := profile, status := .preparing }
  (task_id,
    { tasks := m.tasks ++ [(task_id, task)]
      active_task := some task_id
      counter := m.counter + 1 })

/-- `IngestionManager.start_ingestion` (`ingestion_manager.py` lines 85-109):
if the (single, global) active task belongs to the same profile and is not
terminal, return its identifier; otherwise create and register a new task. -/
def start_ingestion (m : IngestionManager) (profile : String) : String × IngestionManager :=
  match m.active_task.bind (fun i => m.tasks.lookup i) with
  | some t =>
    if t.profile_name = profile ∧ t.status ∉ terminalStatuses then (t.id, m)
    else startNewTask m profile
  | none => startNewTask m profile

/-- The worker thread's status writes (`task.status = ...` inside
`_run_ingestion`), as a state update on the registry. -/
def setStatus (m : IngestionManager) (tid : String) (st : IngStatus) : IngestionManager :=
  { m with
      tasks := m.tasks.map fun p =>
        if p.1 = tid then (p.1, { p.2 with status := st }) else p }

/-- How many registered tasks of a profile are in a non-terminal state. -/
def nonTerminalCount (m : IngestionManager) (profile : String) : Nat :=
  (m.tasks.filter fun p =>
    p.2.profile_name = profile ∧ p.2.status ∉ terminalStatuses).length

/-- The freshly initialised singleton registry. -/
def emptyManager : IngestionManager :=
  { tasks := [], active_task := none, counter := 0 }

/-- A registry whose single active task is a processing task of profile
`A`, used to instantiate theorems on concrete inputs. -/
def sampleManager : IngestionManager :=
  { tasks := [("task-0", { id := "task-0", profile_name := "A", status := .processing })]
    active_task := some "task-0"
    counter := 1 }

end DocsAI.Manager

namespace DocsAI.Crawl

/-!
`src/docsai/retriever/ingest.py`, crawler part (lines 53-203).

The network, `urllib.parse`, BeautifulSoup link extraction, the on-disk
cache and the stdlib `RobotFileParser` are external and live in `CrawlEnv`:
`fetch` is `requests.get` (`none` models a raised exception), `urlparse` is
`urllib.parse.urlparse` restricted to the fields the code reads,
`robotRules` maps a parsed robots.txt body to its
`can_fetch(user_agent, url)` predicate, `hrefs` lists the `href` attributes
of the anchors BeautifulSoup finds, `urljoin` is `urllib.parse.urljoin`,
and `cache0` is the pre-existing on-disk cache keyed by URL (the file name
`sha1(url) + ".html"` is a injective rename of the URL).  The module-level
`_robots_cache` is threaded through the crawl state; its initial value is
the process state at call time.
-/

/-- An HTTP response as consulted by the crawler: status code,
`Content-Type` header and body text. -/
structure Resp where
  status : Nat
  contentType : String
  body : String
deriving DecidableEq

/-- The fields of `urllib.parse.urlparse` read by the crawler. -/
structure UrlParts where
  scheme : String
  netloc : String
  path : String
deriving DecidableEq

/-- The external collaborators of the crawler. -/
structure CrawlEnv where
  urlparse : String → UrlParts
  fetch : String → Option Resp
  robotRules : String → String → Bool
  hrefs : String → List String
  urljoin : String → String → String
  cache0 : String → Option String

/-- `_is_allowed_path(url, start_domain, allowed_paths)` (`ingest.py` lines
87-96): same network host and, unless the prefix list is empty, a path
starting with one of the allowed prefixes (an empty path counts as `/`). -/
def is_allowed_path (env : CrawlEnv) (url start_domain : String)
    (allowed_paths : List String) : Bool :=
  let u := env.urlparse url
  let d := env.urlparse start_domain
  if u.netloc ≠ d.netloc then false
  else if allowed_paths = [] then true
  else
    let path := if u.path = "" then "/" else u.path
    allowed_paths.any fun p => pyStartsWith path p

/-- The crawler state: the module-level robots cache, the cache files
written during this crawl, the seen set, the output map, the BFS frontier
and two instrumentation traces recording every page GET issued and every
robots.txt GET issued. -/
structure CrawlSt where
  robotsCache : List (String × Option (String → Bool))
  cacheW : List (String × String)
  seen : List String
  out : List (String × String)
  frontier : List (String × Nat)
  fetched : List String
  robotsFetched : List String

/-- The `domain_key` of `_robots_allowed` (`ingest.py` lines 58-59). -/
def robotsKey (env : CrawlEnv) (start_domain : String) : String :=
  (env.urlparse start_domain).scheme ++ "://" ++ (env.urlparse start_domain).netloc

/-- The cache-miss body of `_robots_allowed` (`ingest.py` lines 61-77):
fetch `robots.txt` once, parse it on a 200 non-HTML response, and cache
`None` (no restrictions) on any failure, non-200 status or HTML response. -/
def robotsCacheFill (env : CrawlEnv) (st : CrawlSt) (domain_key : String) : CrawlSt :=
  if (st.robotsCache.lookup domain_key).isSome then st
  else
    let robots_url := domain_key ++ "/robots.txt"
    let st1 := { st with robotsFetched := st.robotsFetched ++ [robots_url] }
    match env.fetch robots_url with
    | some r =>
      if r.status = 200 ∧ pyIn "text/html" r.contentType = false then
        { st1 with robotsCache :=
            st1.robotsCache ++ [(domain_key, some (env.robotRules r.body))] }
      else { st1 with robotsCache := st1.robotsCache ++ [(domain_key, none)] }
    | none => { st1 with robotsCache := st1.robotsCache ++ [(domain_key, none)] }

/-- `_robots_allowed(start_domain, url, respect)` (`ingest.py` lines
55-85). -/
def robots_allowed (env : CrawlEnv) (st : CrawlSt) (start_domain url : String)
    (respect : Bool) : Bool × CrawlSt :=
  if respect = false then (true, st)
  else
    let domain_key := robotsKey env start_domain
    let st' := robotsCacheFill env st domain_key
    match st'.robotsCache.lookup domain_key with
    | some (some rp) => (rp url, st')
    | some none => (true, st')
    | none => (true, st')

/-- The cache value `_robots_allowed` computes for a host on a cache miss:
parsed rules for a 200 non-HTML response, `none` (no restrictions)
otherwise. -/
def robotsOracle (env : CrawlEnv) (domain_key : String) : Option (String → Bool) :=
  match env.fetch (domain_key ++ "/robots.txt") with
  | some r =>
    if r.status = 200 ∧ pyIn "text/html" r.contentType = false then
      some (env.robotRules r.body)
    else none
  | none => none

/-- Whether the host's effective robots rules permit a URL (`none` rules
permit everything). -/
def oracleAllows (env : CrawlEnv) (domain_key url : String) : Bool :=
  match robotsOracle env domain_key with
  | some rp => rp url
  | none => true

/-- A robots cache every entry of which agrees with what `_robots_allowed`
would compute for its host (true of every cache state the crawler ever
builds from an empty one). -/
def RCConsistent (env : CrawlEnv) (rc : List (String × Option (String → Bool))) : Prop :=
  ∀ k v, (k, v) ∈ rc → v = robotsOracle env k

/-- `_read_cache` (`ingest.py` lines 98-106): cache files written during
this run shadow the pre-existing cache. -/
def readCache (env : CrawlEnv) (st : CrawlSt) (url : String) : Option String :=
  match st.cacheW.lookup url with
  | some h => some h
  | none => env.cache0 url

/-- The cache-or-fetch block of `crawl_website` (`ingest.py` lines 154-173):
on a cache miss issue the GET (recorded in the `fetched` trace), accept only
200 `text/html` responses, and write accepted pages to the cache. -/
def fetchPage (env : CrawlEnv) (st : CrawlSt) (url : String) :
    Option String × CrawlSt :=
  match readCache env st url with
  | some html => (some html, st)
  | none =>
    let st1 := { st with fetched := st.fetched ++ [url] }
    match env.fetch url with
    | none => (none, st1)
    | some r =>
      if r.status ≠ 200 ∨ pyIn "text/html" r.contentType = false then (none, st1)
      else (some r.body, { st1 with cacheW := st1.cacheW ++ [(url, r.body)] })

/-- The link-discovery block of `crawl_website` (`ingest.py` lines 184-200):
strip each `href`, drop fragment/mailto/javascript links, resolve against
the page URL and keep those passing the path gate, at depth + 1. -/
def extractLinks (env : CrawlEnv) (url html base_domain : String)
    (allowed_paths : List String) (depth : Nat) : List (String × Nat) :=
  (env.hrefs html).filterMap fun href0 =>
    let href := pyStrip href0
    if pyStartsWith href "#" || pyStartsWith href "mailto:" ||
        pyStartsWith href "javascript:" then none
    else
      let nxt := env.urljoin url href
      if is_allowed_path env nxt base_domain allowed_paths then
        some (nxt, depth + 1)
      else none

/-- The robots-gate-then-fetch tail of one `while frontier` iteration
(`ingest.py` lines 150-200), entered after the seen-set and path gates:
apply the robots gate, load from cache or fetch, record the page, and
extend the frontier with its links when below the depth limit. -/
def processGated (env : CrawlEnv) (base_domain : String) (allowed_paths : List String)
    (max_depth : Nat) (st2 : CrawlSt) (url : String) (depth : Nat) : CrawlSt :=
  let rr := robots_allowed env st2 base_domain url true
  if rr.1 = false then rr.2
  else
    let fp := fetchPage env rr.2 url
    match fp.1 with
    | none => fp.2
    | some html =>
      let st3 := { fp.2 with out := fp.2.out ++ [(url, html)] }
      if depth ≥ max_depth then st3
      else
        { st3 with frontier :=
            st3.frontier ++ extractLinks env url html base_domain allowed_paths depth }

/-- One iteration of the `while frontier` loop of `crawl_website`
(`ingest.py` lines 139-200): pop a URL, skip seen URLs, apply the path
gate, then hand over to `processGated`. -/
def crawlStep (env : CrawlEnv) (base_domain : String) (allowed_paths : List String)
    (max_depth : Nat) (st : CrawlSt) : CrawlSt :=
  match st.frontier with
  | [] => st
  | (url, depth) :: rest =>
    let st1 := { st with frontier := rest }
    if url ∈ st1.seen then st1
    else
      let st2 := { st1 with seen := st1.seen ++ [url] }
      if is_allowed_path env url base_domain allowed_paths = false then st2
      else processGated env base_domain allowed_paths max_depth st2 url depth

/-- The `while frontier` loop with explicit fuel (each unit of fuel covers
one dequeue; the loop's own termination argument — a finite reachable URL
set — is external to the embedding). -/
def crawlLoop (env : CrawlEnv) (base_domain : String) (allowed_paths : List String)
    (max_depth : Nat) : Nat → CrawlSt → CrawlSt
  | 0, st => st
  | fuel + 1, st =>
    if st.frontier = [] then st
    else crawlLoop env base_domain allowed_paths max_depth fuel
      (crawlStep env base_domain allowed_paths max_depth st)

/-- The `base_domain` computed by `crawl_website` (`ingest.py` lines
123-125). -/
def baseDomain (env : CrawlEnv) (start_url : String) : String :=
  (env.urlparse start_url).scheme ++ "://" ++ (env.urlparse start_url).netloc

/-- The initial crawl state: the process-wide robots cache `rc0`, an empty
seen set and output, and the start URL at depth 0. -/
def initSt (start_url : String)
    (rc0 : List (String × Option (String → Bool))) : CrawlSt :=
  { robotsCache := rc0, cacheW := [], seen := [], out := [],
    frontier := [(start_url, 0)], fetched := [], robotsFetched := [] }

/-- `crawl_website(start_url, allowed_paths, max_depth, cache_dir)`
(`ingest.py` lines 117-203). -/
def crawl_website (env : CrawlEnv) (start_url : String) (allowed_paths : List String)
    (max_depth : Nat) (rc0 : List (String × Option (String → Bool)))
    (fuel : Nat) : CrawlSt :=
  crawlLoop env (baseDomain env start_url) allowed_paths max_depth fuel
    (initSt start_url rc0)

/-- A one-page test web: host `h` serving an HTML page at every URL, with a
404 for `robots.txt` and no outgoing links. -/
def simpleEnv : CrawlEnv where
  urlparse := fun _ => { scheme := "http", netloc := "h", path := "/a" }
  fetch := fun u =>
    if u = "http://h/robots.txt" then some { status := 404, contentType := "text/plain", body := "" }
    else some { status := 200, contentType := "text/html", body := "page" }
  robotRules := fun _ _ => true
  hrefs := fun _ => []
  urljoin := fun _ href => href
  cache0 := fun _ => none

/-- The robots.txt body served by `robotsEnv`. -/
def robotsBody : String :=
  "User-agent: *\nDisallow: /b"

/-- A test web whose host serves a plain-text robots.txt disallowing
`http://h/b` and allowing everything else; `robotRules` reproduces the
stdlib `RobotFileParser` verdicts on that body. -/
def robotsEnv : CrawlEnv where
  urlparse := fun u =>
    if u = "http://h/b" then { scheme := "http", netloc := "h", path := "/b" }
    else { scheme := "http", netloc := "h", path := "/a" }
  fetch := fun u =>
    if u = "http://h/robots.txt" then
      some { status := 200, contentType := "text/plain", body := robotsBody }
    else some { status := 200, contentType := "text/html", body := "page" }
  robotRules := fun body u =>
    if body = robotsBody then (if u = "http://h/b" then false else true) else true
  hrefs := fun _ => []
  urljoin := fun _ href => href
  cache0 := fun _ => none

end DocsAI.Crawl

/-!
The embedding ends here; the remainder of the file states and proves the
verified properties.
-/

namespace DocsAI.Ingest

theorem chunkLoop_stop (words : List String) (tok step fuel i : Nat)
    (h : ¬ i < words.length) : chunkLoop words tok step fuel i = [] := by
  cases fuel <;> simp [chunkLoop, h]

theorem chunkLoop_cons (words : List String) (tok step fuel i : Nat)
    (h : i < words.length) :
    chunkLoop words tok step (fuel + 1) i =
      spaceJoin ((words.drop i).take tok) :: chunkLoop words tok step fuel (i + step) := by
  simp [chunkLoop, h]

end DocsAI.Ingest

namespace DocsAI.Ingest

/-- C1. A chunk identifier emitted by web ingestion is exactly
`hash(origin) + "_" + sequence number + "_" + first 8 hex digits of
hash(chunk text)`, a pure function of origin, sequence number and chunk text;
and the multiset of identifiers produced from a crawl result is invariant
under reordering of byte-identical page content, so re-running ingestion on
identical content reproduces the identifiers. -/
theorem chunk_identifier_pure (h htmlToMd : String → String)
    (chunkTokens chunkOverlap minTextLen : Nat) (raw : List (String × String)) :
    (∀ d ∈ ingestWebDocs h htmlToMd chunkTokens chunkOverlap minTextLen raw,
      ∃ html chunk,
        (d.source_url, html) ∈ raw ∧
        (ingestChunk (htmlToMd html) chunkTokens chunkOverlap)[d.chunk_index]? = some chunk ∧
        d.cid = h d.source_url ++ "_" ++ toString d.chunk_index ++ "_" ++ pyTake (h chunk) 8 ∧
        d.text = chunk ++ "\n\n(Source: " ++ d.source_url ++ ")") ∧
    (∀ raw', raw.Perm raw' →
      ((ingestWebDocs h htmlToMd chunkTokens chunkOverlap minTextLen raw).map WebDoc.cid).Perm
        ((ingestWebDocs h htmlToMd chunkTokens chunkOverlap minTextLen raw').map WebDoc.cid)) := by
  constructor
  · intro d hd
    rw [ingestWebDocs, List.mem_flatMap] at hd
    obtain ⟨p, hp, hd⟩ := hd
    simp only [pageDocs] at hd
    split at hd
    · exact absurd hd (List.not_mem_nil d)
    · split at hd
      · exact absurd hd (List.not_mem_nil d)
      · rw [List.mem_filterMap] at hd
        obtain ⟨a, ha, hfa⟩ := hd
        split at hfa
        · exact absurd hfa (Option.noConfusion ·)
        · obtain ⟨idx, chunk⟩ := a
          rw [List.mk_mem_enum_iff_getElem?] at ha
          injection hfa with hfa
          subst hfa
          exact ⟨p.2, chunk, hp, ha, rfl, rfl⟩
  · intro raw' hperm
    exact (hperm.flatMap_right _).map _

set_option maxRecDepth 100000 in
/-- Witness for C1: a concrete one-page crawl result; the produced document's
identifier has the required shape, and permuting a two-page crawl result
permutes the identifier list. -/
theorem chunk_identifier_pure_witness :
    ({ cid := "u_0_aa ab ac", text := mdSample ++ "\n\n(Source: u)",
       source_url := "u", chunk_index := 0, source_type := "web" } : WebDoc) ∈
        ingestWebDocs id id 800 120 1 [("u", mdSample)] ∧
    (∃ html chunk,
      (("u" : String), html) ∈ [(("u" : String), mdSample)] ∧
      (ingestChunk (id html) 800 120)[(0 : Nat)]? = some chunk ∧
      ("u_0_aa ab ac" : String) = id "u" ++ "_" ++ toString (0 : Nat) ++ "_" ++ pyTake (id chunk) 8 ∧
      mdSample ++ "\n\n(Source: u)" = chunk ++ "\n\n(Source: " ++ "u" ++ ")") ∧
    ([("u", mdSample), ("v", mdSample)] : List (String × String)).Perm
        [("v", mdSample), ("u", mdSample)] ∧
    ((ingestWebDocs id id 800 120 1 [("u", mdSample), ("v", mdSample)]).map WebDoc.cid).Perm
        ((ingestWebDocs id id 800 120 1 [("v", mdSample), ("u", mdSample)]).map WebDoc.cid) := by
  refine ⟨by decide, ?_, by decide, ?_⟩
  · have := (chunk_identifier_pure id id 800 120 1 [("u", mdSample)]).1
      { cid := "u_0_aa ab ac", text := mdSample ++ "\n\n(Source: u)",
        source_url := "u", chunk_index := 0, source_type := "web" } (by decide)
    exact this
  · exact (chunk_identifier_pure id id 800 120 1 [("u", mdSample), ("v", mdSample)]).2
      [("v", mdSample), ("u", mdSample)] (by decide)

set_option maxRecDepth 100000 in
/-- C8 counterexample: `mdSample` has exactly 50 words, yet `_chunk` with
`chunk_size=800` returns one chunk, not zero (the threshold `len(words) < 50`
excludes 50-word documents from the zero-chunk case), and
`SmartChunker.chunk_sliding_window` likewise returns one chunk. -/
theorem fifty_word_zero_chunks_cex :
    (pySplitWs mdSample).length = 50 ∧
    ingestChunk mdSample 800 120 = [mdSample] ∧
    ingestChunk mdSample 800 120 ≠ [] ∧
    DocIntel.chunk_sliding_window mdSample 800 120 =
      .ok [{ text := mdSample, type := "sliding_window",
             start_idx := some 0, end_idx := some 50 }] :=
  ⟨by decide, by decide, by decide, by decide⟩

/-- C8 (amended): `_chunk` returns zero chunks exactly for documents of fewer
than 50 words; a document of exactly 50 words with `chunk_size=800` (and the
configured overlap of at most 750) yields exactly one chunk containing all
its words. -/
theorem chunk_min_word_threshold (md : String) (tok overlap : Nat) :
    ((pySplitWs md).length < 50 → ingestChunk md tok overlap = []) ∧
    ((pySplitWs md).length = 50 → overlap ≤ 750 →
      ingestChunk md 800 overlap = [spaceJoin (pySplitWs md)]) := by
  constructor
  · intro h
    simp [ingestChunk, h]
  · intro h50 hov
    have hnot : ¬ (pySplitWs md).length < 50 := by omega
    simp only [ingestChunk, if_neg hnot]
    have hmax : max (800 - overlap) 1 = 800 - overlap := Nat.max_eq_left (by omega)
    rw [hmax, h50, show (50 : Nat) = 49 + 1 from rfl,
      chunkLoop_cons _ _ _ _ _ (by omega),
      chunkLoop_stop _ _ _ _ _ (by omega)]
    simp [List.take_of_length_le (by omega : (pySplitWs md).length ≤ 800)]

/-- Witness for the amended C8 theorem: a 49-word document yields no chunks,
and the 50-word `mdSample` yields exactly one. -/
theorem chunk_min_word_threshold_witness :
    ((pySplitWs (pyTake mdSample 146)).length < 50 ∧
      ingestChunk (pyTake mdSample 146) 800 120 = []) ∧
    ((pySplitWs mdSample).length = 50 ∧ (120 : Nat) ≤ 750 ∧
      ingestChunk mdSample 800 120 = [spaceJoin (pySplitWs mdSample)]) :=
  ⟨⟨by decide, (chunk_min_word_threshold (pyTake mdSample 146) 800 120).1 (by decide)⟩,
    ⟨by decide, by decide, (chunk_min_word_threshold mdSample 800 120).2 (by decide) (by decide)⟩⟩

end DocsAI.Ingest

namespace DocsAI.DocIntel

theorem swLoop_stop (words : List String) (cs : Int) (step fuel i : Nat)
    (h : ¬ i < words.length) : swLoop words cs step fuel i = [] := by
  cases fuel <;> simp [swLoop, h]

theorem swLoop_cons (words : List String) (cs : Int) (step fuel i : Nat)
    (h : i < words.length) :
    swLoop words cs step (fuel + 1) i =
      { text := spaceJoin (pySlice words i ((i : Int) + cs))
        type := "sliding_window"
        start_idx := some (i : Int)
        end_idx := some (min ((i : Int) + cs) (words.length : Int)) } ::
        swLoop words cs step fuel (i + step) := by
  simp [swLoop, h]

theorem swLoop_mem_start (words : List String) (cs : Int) (step : Nat) :
    ∀ fuel i c, c ∈ swLoop words cs step fuel i →
      ∃ s : Nat, i ≤ s ∧ c.start_idx = some (s : Int) := by
  intro fuel
  induction fuel with
  | zero => intro i c hc; simp [swLoop] at hc
  | succ fuel ih =>
    intro i c hc
    by_cases hi : i < words.length
    · rw [swLoop_cons _ _ _ _ _ hi] at hc
      rcases List.mem_cons.mp hc with h | h
      · exact ⟨i, le_refl i, by rw [h]⟩
      · obtain ⟨s, hs, hcs⟩ := ih (i + step) c h
        exact ⟨s, by omega, hcs⟩
    · rw [swLoop_stop _ _ _ _ _ hi] at hc
      simp at hc

theorem swLoop_pairwise (words : List String) (cs : Int) (step : Nat)
    (hstep : 0 < step) :
    ∀ fuel i, (swLoop words cs step fuel i).Pairwise
      (fun c d => ∀ a b : Int, c.start_idx = some a → d.start_idx = some b → a < b) := by
  intro fuel
  induction fuel with
  | zero => intro i; simp [swLoop]
  | succ fuel ih =>
    intro i
    by_cases hi : i < words.length
    · rw [swLoop_cons _ _ _ _ _ hi]
      refine List.Pairwise.cons ?_ (ih (i + step))
      intro d hd a b ha hb
      obtain ⟨s, hs, hcs⟩ := swLoop_mem_start words cs step fuel (i + step) d hd
      simp only [Option.some.injEq] at ha
      rw [hcs] at hb
      simp only [Option.some.injEq] at hb
      subst ha
      subst hb
      exact_mod_cast by omega
    · rw [swLoop_stop _ _ _ _ _ hi]
      exact List.Pairwise.nil

theorem swLoop_cover (words : List String) (cs : Int) (step : Nat)
    (hstep : 0 < step) (hsc : (step : Int) ≤ cs) :
    ∀ fuel i j, j < words.length → i ≤ j → words.length - i ≤ fuel →
      ∃ c ∈ swLoop words cs step fuel i, ∃ s : Nat,
        c.start_idx = some (s : Int) ∧ s ≤ j ∧ (j : Int) < (s : Int) + cs ∧
        c.text = spaceJoin (pySlice words s ((s : Int) + cs)) := by
  intro fuel
  induction fuel with
  | zero => intro i j hj hij hfuel; omega
  | succ fuel ih =>
    intro i j hj hij hfuel
    have hi : i < words.length := lt_of_le_of_lt hij hj
    rw [swLoop_cons _ _ _ _ _ hi]
    by_cases hjc : (j : Int) < (i : Int) + cs
    · exact ⟨_, List.mem_cons_self _ _, i, rfl, hij, hjc, rfl⟩
    · have hstepj : i + step ≤ j := by
        have : (i : Int) + cs ≤ (j : Int) := le_of_not_lt hjc
        have : (i : Int) + (step : Int) ≤ (j : Int) := by omega
        exact_mod_cast this
      obtain ⟨c, hc, hrest⟩ := ih (i + step) j hj hstepj (by omega)
      exact ⟨c, List.mem_cons_of_mem _ hc, hrest⟩

theorem mem_pySlice_of_lt (words : List String) (s j : Nat) (e : Int)
    (hj : j < words.length) (hsj : s ≤ j) (hje : (j : Int) < e) :
    words[j]! ∈ pySlice words s e := by
  have he0 : (0 : Int) ≤ e := le_trans (Int.ofNat_nonneg j) (le_of_lt hje)
  have hen : ¬ e < 0 := not_lt.mpr he0
  have hjE : j < (max e 0).toNat := by
    have : (j : Int) < max e 0 := lt_of_lt_of_le hje (le_max_left e 0)
    omega
  have hstop : j < min (max e 0).toNat words.length := by omega
  have hmem : (pySlice words s e)[j - s]? = some words[j]! := by
    simp only [pySlice, hen, if_false]
    rw [List.getElem?_drop]
    have harith : s + (j - s) = j := by omega
    rw [harith, List.getElem?_take]
    rw [if_pos hstop]
    rw [List.getElem?_eq_getElem hj]
    rw [getElem!_pos words j hj]
  exact List.getElem?_mem hmem

/-- C10. `chunk_sliding_window` is total exactly when `overlap < chunk_size`:
for `0 ≤ overlap < chunk_size` it returns chunks in strictly increasing
start-index order whose texts jointly contain every word of the content; for
`overlap = chunk_size` the Python `range` raises `ValueError` (step zero);
and for `overlap > chunk_size` it silently returns the empty list. -/
theorem sliding_window_totality (content : String) (cs ov : Int) :
    (0 ≤ ov → ov < cs →
      ∃ chunks, chunk_sliding_window content cs ov = .ok chunks ∧
        chunks.Pairwise
          (fun c d => ∀ a b : Int, c.start_idx = some a → d.start_idx = some b → a < b) ∧
        (∀ j, j < (pySplitWs content).length →
          ∃ c ∈ chunks, ∃ s : Nat,
            c.start_idx = some (s : Int) ∧ s ≤ j ∧ (j : Int) < (s : Int) + cs ∧
            c.text = spaceJoin (pySlice (pySplitWs content) s ((s : Int) + cs)) ∧
            (pySplitWs content)[j]! ∈ pySlice (pySplitWs content) s ((s : Int) + cs))) ∧
    (ov = cs → chunk_sliding_window content cs ov =
      .error "ValueError: range() arg 3 must not be zero") ∧
    (cs < ov → chunk_sliding_window content cs ov = .ok []) := by
  refine ⟨?_, ?_, ?_⟩
  · intro h0 hlt
    have hne : ¬ cs - ov = 0 := by omega
    have hneg : ¬ cs - ov < 0 := by omega
    refine ⟨_, by rw [chunk_sliding_window]; rw [if_neg hne, if_neg hneg], ?_, ?_⟩
    · exact swLoop_pairwise _ cs _ (by omega) _ 0
    · intro j hj
      have hstep : (0 : Int) < cs - ov := by omega
      have h1 : 0 < (cs - ov).toNat := by omega
      have h2 : ((cs - ov).toNat : Int) ≤ cs := by omega
      obtain ⟨c, hc, s, hs1, hs2, hs3, hs4⟩ :=
        swLoop_cover (pySplitWs content) cs (cs - ov).toNat h1 h2
          (pySplitWs content).length 0 j hj (Nat.zero_le j) (le_refl _)
      exact ⟨c, hc, s, hs1, hs2, hs3, hs4,
        mem_pySlice_of_lt (pySplitWs content) s j ((s : Int) + cs) hj hs2 hs3⟩
  · intro h
    rw [chunk_sliding_window]
    rw [if_pos (by omega)]
  · intro h
    rw [chunk_sliding_window]
    rw [if_neg (by omega), if_pos (by omega)]

/-- Witness for C10 at concrete inputs: overlap 1 of chunk size 2 covers all
five words of a document; overlap equal to the chunk size raises; a larger
overlap yields the empty list. -/
theorem sliding_window_totality_witness :
    ((0 : Int) ≤ 1 ∧ (1 : Int) < 2 ∧
      ∃ chunks, chunk_sliding_window "a b c d e" 2 1 = .ok chunks ∧
        chunks.Pairwise
          (fun c d => ∀ a b : Int, c.start_idx = some a → d.start_idx = some b → a < b) ∧
        (∀ j, j < (pySplitWs "a b c d e").length →
          ∃ c ∈ chunks, ∃ s : Nat,
            c.start_idx = some (s : Int) ∧ s ≤ j ∧ (j : Int) < (s : Int) + 2 ∧
            c.text = spaceJoin (pySlice (pySplitWs "a b c d e") s ((s : Int) + 2)) ∧
            (pySplitWs "a b c d e")[j]! ∈ pySlice (pySplitWs "a b c d e") s ((s : Int) + 2))) ∧
    chunk_sliding_window "a b c d e" 2 2 = .error "ValueError: range() arg 3 must not be zero" ∧
    chunk_sliding_window "a b c d e" 2 3 = .ok [] :=
  ⟨⟨by decide, by decide,
    (sliding_window_totality "a b c d e" 2 1).1 (by decide) (by decide)⟩,
    (sliding_window_totality "a b c d e" 2 2).2.1 (by decide),
    (sliding_window_totality "a b c d e" 2 3).2.2 (by decide)⟩

/-- C6 counterexample: `"hello world"` contains no structural markers of any
strategy, yet the section-aware strategy (dispatched through
`SmartChunker.chunk`) produces a chunk tagged `section` with no index fields,
which differs from the sliding-window fallback's output on the same
`(text, chunk_size, overlap)`. -/
theorem strategy_fallback_equality_cex :
    smartChunk noMarkerEnv "hello world" "section_aware" 800 100 ≠
      chunk_sliding_window "hello world" 800 100 ∧
    smartChunk noMarkerEnv "hello world" "section_aware" 800 100 =
      .ok [{ text := "hello world", type := "section",
             boundary := some "document_end" }] ∧
    chunk_sliding_window "hello world" 800 100 =
      .ok [{ text := "hello world", type := "sliding_window",
             start_idx := some 0, end_idx := some 2 }] :=
  ⟨by decide, by decide, by decide⟩

/-- C6 (amended): when an input contains none of a strategy's structural
markers, the conversation-aware, record-aware and time-aware strategies
return exactly the sliding-window fallback's output; the section-aware
strategy instead returns the whole (whitespace-normalised) text as one chunk
of type `section`, the message-boundary strategy returns the whole text as
one chunk of type `message` (both falling back to the sliding window only
for blank input), and the endpoint-aware and chapter-aware strategies
delegate to the section-aware strategy. -/
theorem strategy_fallback_equality (env : ReEnv) (content : String) (cs ov : Int) :
    (env.findTurns content = [] →
      chunk_by_conversation env.findTurns content cs ov =
        chunk_sliding_window content cs ov) ∧
    (recordsLike content = false →
      chunk_by_records content cs ov = chunk_sliding_window content cs ov) ∧
    ((∀ p ∈ tsPatternList, env.reSearch p content = false) →
      chunk_by_timestamps env.reSearch env.reMatch env.reSplitCap content cs ov =
        chunk_sliding_window content cs ov) ∧
    (env.sectionSplit content = [content] → pySplitWs content ≠ [] →
      chunk_by_sections env.sectionSplit content cs ov =
        .ok [{ text := spaceJoin (pySplitWs content), type := "section",
               boundary := some "document_end" }]) ∧
    (env.messageSplit content = [content] → pyStrip content ≠ "" →
      chunk_by_messages env.messageSplit content cs ov =
        .ok [{ text := content, type := "message", boundary := some "thread_end" }]) ∧
    ((∀ p ∈ endpointPatternList, env.reSearch p content = false) →
      chunk_by_endpoints env.reSearch env.reMatch env.reSplitCap env.sectionSplit
          content cs ov =
        chunk_by_sections env.sectionSplit content cs ov) ∧
    ((∀ p ∈ chapterPatternList, env.reSearch p content = false) →
      chunk_by_chapters env.reSearch env.reSplitCap env.sectionSplit content cs ov =
        chunk_by_sections env.sectionSplit content cs ov) := by
  refine ⟨?_, ?_, ?_, ?_, ?_, ?_, ?_⟩
  · intro h
    simp [chunk_by_conversation, h]
  · intro h
    simp [chunk_by_records, h]
  · intro h
    have hnone : tsPatternList.find? (fun p => env.reSearch p content) = none :=
      List.find?_eq_none.mpr (fun p hp => by simp [h p hp])
    simp [chunk_by_timestamps, hnone]
  · intro hsplit hw
    simp [chunk_by_sections, hsplit, hw]
  · intro hsplit hs
    simp [chunk_by_messages, hsplit, hs, spaceJoin, joinWith]
  · intro h
    have hnone : endpointPatternList.find? (fun p => env.reSearch p content) = none :=
      List.find?_eq_none.mpr (fun p hp => by simp [h p hp])
    simp [chunk_by_endpoints, hnone]
  · intro h
    have hnone : chapterPatternList.find? (fun p => env.reSearch p content) = none :=
      List.find?_eq_none.mpr (fun p hp => by simp [h p hp])
    simp [chunk_by_chapters, hnone]

/-- Witness for the amended C6 theorem on the marker-free input
`"hello world"`. -/
theorem strategy_fallback_equality_witness :
    (noMarkerEnv.findTurns "hello world" = [] ∧
      chunk_by_conversation noMarkerEnv.findTurns "hello world" 800 100 =
        chunk_sliding_window "hello world" 800 100) ∧
    (recordsLike "hello world" = false ∧
      chunk_by_records "hello world" 800 100 = chunk_sliding_window "hello world" 800 100) ∧
    (chunk_by_timestamps noMarkerEnv.reSearch noMarkerEnv.reMatch noMarkerEnv.reSplitCap
        "hello world" 800 100 = chunk_sliding_window "hello world" 800 100) ∧
    (chunk_by_sections noMarkerEnv.sectionSplit "hello world" 800 100 =
      .ok [{ text := spaceJoin (pySplitWs "hello world"), type := "section",
             boundary := some "document_end" }]) ∧
    (chunk_by_messages noMarkerEnv.messageSplit "hello world" 800 100 =
      .ok [{ text := "hello world", type := "message", boundary := some "thread_end" }]) ∧
    (chunk_by_endpoints noMarkerEnv.reSearch noMarkerEnv.reMatch noMarkerEnv.reSplitCap
        noMarkerEnv.sectionSplit "hello world" 800 100 =
      chunk_by_sections noMarkerEnv.sectionSplit "hello world" 800 100) ∧
    (chunk_by_chapters noMarkerEnv.reSearch noMarkerEnv.reSplitCap
        noMarkerEnv.sectionSplit "hello world" 800 100 =
      chunk_by_sections noMarkerEnv.sectionSplit "hello world" 800 100) :=
  ⟨⟨by decide, (strategy_fallback_equality noMarkerEnv "hello world" 800 100).1 (by decide)⟩,
    ⟨by decide, (strategy_fallback_equality noMarkerEnv "hello world" 800 100).2.1 (by decide)⟩,
    (strategy_fallback_equality noMarkerEnv "hello world" 800 100).2.2.1 (by decide),
    (strategy_fallback_equality noMarkerEnv "hello world" 800 100).2.2.2.1 (by decide) (by decide),
    (strategy_fallback_equality noMarkerEnv "hello world" 800 100).2.2.2.2.1 (by decide) (by decide),
    (strategy_fallback_equality noMarkerEnv "hello world" 800 100).2.2.2.2.2.1 (by decide),
    (strategy_fallback_equality noMarkerEnv "hello world" 800 100).2.2.2.2.2.2 (by decide)⟩

theorem foldl_weight_count (l : List String) (f : String → Bool) (w : Nat) :
    ∀ init, l.foldl (fun sc p => if f p then sc + w else sc) init =
      init + w * l.countP f := by
  induction l with
  | nil => intro init; simp
  | cons a l ih =>
    intro init
    by_cases hfa : f a
    · rw [List.foldl_cons, if_pos hfa, ih (init + w), List.countP_cons]
      simp only [hfa, if_true]
      ring
    · rw [List.foldl_cons, if_neg hfa, ih init, List.countP_cons]
      simp [hfa]

theorem scoreCat_formula (cat : CatCfg) (fl csam sl : String) :
    scoreCat cat fl csam sl =
      10 * cat.patterns.countP (fun p => pyIn p fl) +
      (if sl ∈ cat.extensions then 5 else 0) +
      3 * cat.patterns.countP (fun p => pyIn p csam) := by
  simp only [scoreCat, foldl_weight_count]
  by_cases hext : sl ∈ cat.extensions
  · simp only [hext, if_true]
    ring
  · simp only [hext, if_false]
    ring

theorem pyMaxPair_mem_le (x : CatCfg × Nat) (xs : List (CatCfg × Nat)) :
    pyMaxPair x xs ∈ x :: xs ∧ ∀ y ∈ x :: xs, y.2 ≤ (pyMaxPair x xs).2 := by
  induction xs generalizing x with
  | nil =>
    refine ⟨List.mem_singleton.mpr rfl, ?_⟩
    intro y hy
    rw [List.mem_singleton] at hy
    subst hy
    exact le_refl _
  | cons a xs ih =>
    have hstep : pyMaxPair x (a :: xs) = pyMaxPair (if a.2 > x.2 then a else x) xs := rfl
    obtain ⟨hmem, hle⟩ := ih (if a.2 > x.2 then a else x)
    constructor
    · rw [hstep]
      rcases List.mem_cons.mp hmem with h | h
      · rw [h]
        by_cases hax : a.2 > x.2
        · rw [if_pos hax]
          exact List.mem_cons_of_mem _ (List.mem_cons_self _ _)
        · rw [if_neg hax]
          exact List.mem_cons_self _ _
      · exact List.mem_cons_of_mem _ (List.mem_cons_of_mem _ h)
    · have hxy : x.2 ≤ (if a.2 > x.2 then a else x).2 := by
        by_cases hax : a.2 > x.2
        · rw [if_pos hax]; omega
        · rw [if_neg hax]
      have hay : a.2 ≤ (if a.2 > x.2 then a else x).2 := by
        by_cases hax : a.2 > x.2
        · rw [if_pos hax]
        · rw [if_neg hax]; omega
      have htop := hle _ (List.mem_cons_self _ _)
      intro z hz
      rw [hstep]
      rcases List.mem_cons.mp hz with hz | hz
      · subst hz; exact le_trans hxy htop
      · rcases List.mem_cons.mp hz with hz | hz
        · subst hz; exact le_trans hay htop
        · exact hle z (List.mem_cons_of_mem _ hz)

theorem categorize_document_unfold (filepath content : String) :
    categorize_document filepath content =
      (let best := pyMaxPair
        (categories.headD emptyCat, scoreOf (categories.headD emptyCat) filepath content)
        (categories.tail.map fun c => (c, scoreOf c filepath content))
      if best.2 < 5 then
        { category := "general", confidence := 3/10, chunk_strategy := "sliding_window",
          chunk_size := 800, metadata_extractors := ["basic"] }
      else
        { category := best.1.name, confidence := min ((best.2 : ℚ) / 20) 1,
          chunk_strategy := best.1.chunk_strategy, chunk_size := best.1.chunk_size,
          metadata_extractors := getExtractors best.1.name }) := rfl

/-- C7. The classifier scores each category by 10 per filename keyword found,
5 for extension membership and 3 per keyword found in the first 1000
lowered content characters; if every category scores below the floor of 5
the generic `general` category with the sliding-window strategy is returned,
and otherwise a maximal-scoring category is returned with confidence
`score / 20` capped at 1. -/
theorem classifier_floor_and_argmax (filepath content : String) :
    (∀ cat ∈ categories, scoreOf cat filepath content =
      10 * cat.patterns.countP (fun p => pyIn p (pyLower (pyPathName filepath))) +
      (if pyLower (pySuffix (pyPathName filepath)) ∈ cat.extensions then 5 else 0) +
      3 * cat.patterns.countP (fun p => pyIn p (pyLower (pyTake content 1000)))) ∧
    ((∀ cat ∈ categories, scoreOf cat filepath content < 5) →
      categorize_document filepath content =
        { category := "general", confidence := 3/10, chunk_strategy := "sliding_window",
          chunk_size := 800, metadata_extractors := ["basic"] }) ∧
    ((∃ cat ∈ categories, 5 ≤ scoreOf cat filepath content) →
      ∃ best ∈ categories,
        (∀ cat ∈ categories, scoreOf cat filepath content ≤ scoreOf best filepath content) ∧
        categorize_document filepath content =
          { category := best.name,
            confidence := min ((scoreOf best filepath content : ℚ) / 20) 1,
            chunk_strategy := best.chunk_strategy, chunk_size := best.chunk_size,
            metadata_extractors := getExtractors best.name } ∧
        min ((scoreOf best filepath content : ℚ) / 20) 1 ≤ 1) := by
  have hcons : (categories.headD emptyCat, scoreOf (categories.headD emptyCat) filepath content) ::
      (categories.tail.map fun c => (c, scoreOf c filepath content)) =
      categories.map fun c => (c, scoreOf c filepath content) := rfl
  obtain ⟨hmem, hle⟩ := pyMaxPair_mem_le
    (categories.headD emptyCat, scoreOf (categories.headD emptyCat) filepath content)
    (categories.tail.map fun c => (c, scoreOf c filepath content))
  rw [hcons] at hmem hle
  rw [List.mem_map] at hmem
  obtain ⟨best, hbestmem, hbesteq⟩ := hmem
  refine ⟨?_, ?_, ?_⟩
  · intro cat _
    exact scoreCat_formula cat _ _ _
  · intro hall
    rw [categorize_document_unfold]
    have hlt : (pyMaxPair
        (categories.headD emptyCat, scoreOf (categories.headD emptyCat) filepath content)
        (categories.tail.map fun c => (c, scoreOf c filepath content))).2 < 5 := by
      rw [← hbesteq]
      exact hall best hbestmem
    simp only [hlt, if_pos]
  · intro hex
    obtain ⟨cat, hcatmem, hcat⟩ := hex
    have hcatle := hle (cat, scoreOf cat filepath content)
      (List.mem_map.mpr ⟨cat, hcatmem, rfl⟩)
    refine ⟨best, hbestmem, ?_, ?_, min_le_right _ _⟩
    · intro c hc
      have hcle := hle (c, scoreOf c filepath content) (List.mem_map.mpr ⟨c, hc, rfl⟩)
      rw [← hbesteq] at hcle
      exact hcle
    · rw [categorize_document_unfold]
      have hge : ¬ (pyMaxPair
          (categories.headD emptyCat, scoreOf (categories.headD emptyCat) filepath content)
          (categories.tail.map fun c => (c, scoreOf c filepath content))).2 < 5 := by
        rw [← hbesteq] at hcatle ⊢
        simp only [not_lt]
        exact le_trans hcat hcatle
      simp only [hge, if_neg, if_false]
      rw [← hbesteq]

/-- Witness for C7: `("x.xyz", "")` scores 0 everywhere and falls back to the
generic category; `("manual.md", "")` scores 15 for `technical` and wins with
confidence 15/20. -/
theorem classifier_floor_and_argmax_witness :
    (∀ cat ∈ categories, scoreOf cat "x.xyz" "" < 5) ∧
    categorize_document "x.xyz" "" =
      { category := "general", confidence := 3/10, chunk_strategy := "sliding_window",
        chunk_size := 800, metadata_extractors := ["basic"] } ∧
    (∃ cat ∈ categories, 5 ≤ scoreOf cat "manual.md" "") ∧
    (∃ best ∈ categories,
      (∀ cat ∈ categories, scoreOf cat "manual.md" "" ≤ scoreOf best "manual.md" "") ∧
      categorize_document "manual.md" "" =
        { category := best.name,
          confidence := min ((scoreOf best "manual.md" "" : ℚ) / 20) 1,
          chunk_strategy := best.chunk_strategy, chunk_size := best.chunk_size,
          metadata_extractors := getExtractors best.name } ∧
      min ((scoreOf best "manual.md" "" : ℚ) / 20) 1 ≤ 1) :=
  ⟨by decide, (classifier_floor_and_argmax "x.xyz" "").2.1 (by decide),
    by decide, (classifier_floor_and_argmax "manual.md" "").2.2 (by decide)⟩

end DocsAI.DocIntel

namespace DocsAI.Search

theorem mem_dedupAux : ∀ (l seen : List Nat) (x : Nat),
    x ∈ dedupAux seen l → x ∈ l ∧ x ∉ seen := by
  intro l
  induction l with
  | nil => intro seen x hx; simp [dedupAux] at hx
  | cons a l ih =>
    intro seen x hx
    simp only [dedupAux] at hx
    by_cases h : a ∈ seen
    · rw [if_pos h] at hx
      obtain ⟨h1, h2⟩ := ih seen x hx
      exact ⟨List.mem_cons_of_mem _ h1, h2⟩
    · rw [if_neg h] at hx
      rcases List.mem_cons.mp hx with hx | hx
      · subst hx
        exact ⟨List.mem_cons_self _ _, h⟩
      · obtain ⟨h1, h2⟩ := ih (a :: seen) x hx
        exact ⟨List.mem_cons_of_mem _ h1, fun hc => h2 (List.mem_cons_of_mem _ hc)⟩

theorem dedupAux_nodup : ∀ (l seen : List Nat), (dedupAux seen l).Nodup := by
  intro l
  induction l with
  | nil => intro seen; simp [dedupAux]
  | cons a l ih =>
    intro seen
    simp only [dedupAux]
    by_cases h : a ∈ seen
    · rw [if_pos h]; exact ih seen
    · rw [if_neg h]
      refine List.nodup_cons.mpr ⟨?_, ih (a :: seen)⟩
      intro hc
      exact (mem_dedupAux l (a :: seen) a hc).2 (List.mem_cons_self _ _)

theorem pyDedup_nodup (l : List Nat) : (pyDedup l).Nodup :=
  dedupAux_nodup l []

theorem mem_pyDedup (l : List Nat) (x : Nat) (h : x ∈ pyDedup l) : x ∈ l :=
  (mem_dedupAux l [] x h).1

/-- C5. The fused result never exceeds `combine_top_k` entries; on a
non-empty snapshot it is exactly the lexical top-K followed by the semantic
top-K with only the first occurrence of each index kept and truncated to
`combine_top_k` (lexical priority); with unique stored identifiers its chunk
identifiers contain no duplicates; and an empty snapshot yields the empty
result for every pair of rankers, so neither ranker's output is consulted. -/
theorem search_rank_fusion {M : Type} [Inhabited M]
    (bm25Rank embedRank : String → List String → Nat → List Nat)
    (count : Nat) (ids docs : List String) (metadatas : List M)
    (kb ke ck : Nat) (q : String) :
    ((search bm25Rank embedRank count ids docs metadatas kb ke ck q).length ≤ ck) ∧
    (count ≠ 0 → docs ≠ [] →
      search bm25Rank embedRank count ids docs metadatas kb ke ck q =
        ((pyDedup (bm25Rank q docs (min kb docs.length) ++
            embedRank q docs (min ke docs.length))).take ck).map
          (fun i => (ids.getD i "", docs.getD i "",
            if i < metadatas.length then metadatas.getD i default else default))) ∧
    (ids.Nodup → ids.length = docs.length →
      (∀ i ∈ bm25Rank q docs (min kb docs.length), i < docs.length) →
      (∀ i ∈ embedRank q docs (min ke docs.length), i < docs.length) →
      ((search bm25Rank embedRank count ids docs metadatas kb ke ck q).map
        Prod.fst).Nodup) ∧
    (count = 0 → search bm25Rank embedRank count ids docs metadatas kb ke ck q = []) ∧
    (docs = [] → search bm25Rank embedRank count ids docs metadatas kb ke ck q = []) := by
  refine ⟨?_, ?_, ?_, ?_, ?_⟩
  · simp only [search]
    split_ifs with h1 h2
    · simp
    · simp
    · simp only [List.length_map, List.length_take]
      exact min_le_left _ _
  · intro h1 h2
    simp only [search, if_neg h1, if_neg h2]
  · intro hnodup hlen hbm hem
    by_cases h1 : count = 0
    · simp [search, h1]
    · by_cases h2 : docs = []
      · simp [search, h1, h2]
      · simp only [search, if_neg h1, if_neg h2, List.map_map]
        have hL : ((pyDedup (bm25Rank q docs (min kb docs.length) ++
            embedRank q docs (min ke docs.length))).take ck).Nodup :=
          (pyDedup_nodup _).sublist (List.take_sublist _ _)
        refine List.Nodup.map_on ?_ hL
        intro x hx y hy hxy
        have hxmem : x < ids.length := by
          have := mem_pyDedup _ x (List.mem_of_mem_take hx)
          rcases List.mem_append.mp this with h | h
          · rw [hlen]; exact hbm x h
          · rw [hlen]; exact hem x h
        have hymem : y < ids.length := by
          have := mem_pyDedup _ y (List.mem_of_mem_take hy)
          rcases List.mem_append.mp this with h | h
          · rw [hlen]; exact hbm y h
          · rw [hlen]; exact hem y h
        have hxy' : ids.getD x "" = ids.getD y "" := hxy
        rw [List.getD_eq_getElem ids "" hxmem, List.getD_eq_getElem ids "" hymem] at hxy'
        have hinj := List.nodup_iff_injective_get.mp hnodup
          (show ids.get ⟨x, hxmem⟩ = ids.get ⟨y, hymem⟩ by simpa using hxy')
        simpa using hinj
  · intro h
    simp [search, h]
  · intro h
    simp [search, h]

/-- Witness for C5 on a concrete three-chunk snapshot with overlapping
lexical ranking `[0, 1]` and semantic ranking `[1, 2]`. -/
theorem search_rank_fusion_witness :
    (search (fun _ _ _ => [0, 1]) (fun _ _ _ => [1, 2]) 3
        ["a", "b", "c"] ["x", "y", "z"] [7, 8, 9] 5 5 10 "q").length ≤ 10 ∧
    ((3 : Nat) ≠ 0 ∧ (["x", "y", "z"] : List String) ≠ [] ∧
      search (fun _ _ _ => [0, 1]) (fun _ _ _ => [1, 2]) 3
          ["a", "b", "c"] ["x", "y", "z"] [7, 8, 9] 5 5 10 "q" =
        [("a", "x", 7), ("b", "y", 8), ("c", "z", 9)]) ∧
    ((["a", "b", "c"] : List String).Nodup ∧
      ((search (fun _ _ _ => [0, 1]) (fun _ _ _ => [1, 2]) 3
        ["a", "b", "c"] ["x", "y", "z"] [7, 8, 9] 5 5 10 "q").map Prod.fst).Nodup) ∧
    search (fun _ _ _ => [0, 1]) (fun _ _ _ => [1, 2]) 0
        ["a", "b", "c"] ["x", "y", "z"] [7, 8, 9] 5 5 10 "q" = [] :=
  ⟨(search_rank_fusion (fun _ _ _ => [0, 1]) (fun _ _ _ => [1, 2]) 3
      ["a", "b", "c"] ["x", "y", "z"] [7, 8, 9] 5 5 10 "q").1,
    ⟨by decide, by decide, by decide⟩,
    ⟨by decide,
      (search_rank_fusion (fun _ _ _ => [0, 1]) (fun _ _ _ => [1, 2]) 3
        ["a", "b", "c"] ["x", "y", "z"] [7, 8, 9] 5 5 10 "q").2.2.1
        (by decide) (by decide) (by decide) (by decide)⟩,
    (search_rank_fusion (fun _ _ _ => [0, 1]) (fun _ _ _ => [1, 2]) 0
      ["a", "b", "c"] ["x", "y", "z"] [7, 8, 9] 5 5 10 "q").2.2.2.1 rfl⟩

end DocsAI.Search

namespace DocsAI.Updater

theorem check_unchanged_of_hash_eq (calcHash : String → String) (url : String)
    (ex : StoredMeta) (hdr : HeadHeaders) (content : String)
    (heq : calcHash content = ex.content_hash) :
    (check_url_changes calcHash url (some ex) (some hdr) (some content)).has_changed =
      some false := by
  simp only [check_url_changes]
  split
  · simp [heq]
  · rfl

theorem check_changed_fields (calcHash : String → String) (url : String)
    (ex : StoredMeta) (hdr : HeadHeaders) (content : String)
    (hsig : signalsOf (some ex) hdr ≠ [])
    (hne : calcHash content ≠ ex.content_hash) :
    (check_url_changes calcHash url (some ex) (some hdr) (some content)).has_changed =
        some true ∧
    (check_url_changes calcHash url (some ex) (some hdr) (some content)).old_hash =
        some ex.content_hash ∧
    (check_url_changes calcHash url (some ex) (some hdr) (some content)).new_hash =
        some (calcHash content) ∧
    (check_url_changes calcHash url (some ex) (some hdr) (some content)).error = none ∧
    (check_url_changes calcHash url (some ex) (some hdr) (some content)).is_new = false := by
  simp only [check_url_changes]
  rw [if_pos (Or.inl hsig)]
  simp [hne]

theorem scanStep_mono_updated (check : String → ChangeResult)
    (acc : ScanResults × List LogEntry) (u x : String)
    (hx : x ∈ acc.1.updated) : x ∈ (scanStep check acc u).1.updated := by
  simp only [scanStep]
  split_ifs <;> simp [hx]

theorem scanStep_mono_log (check : String → ChangeResult)
    (acc : ScanResults × List LogEntry) (u : String) (e : LogEntry)
    (he : e ∈ acc.2) : e ∈ (scanStep check acc u).2 := by
  simp only [scanStep]
  split_ifs <;> simp [he]

theorem scan_foldl_mono (check : String → ChangeResult) :
    ∀ (urls : List String) (acc : ScanResults × List LogEntry) (x : String) (e : LogEntry),
      (x ∈ acc.1.updated → x ∈ (urls.foldl (scanStep check) acc).1.updated) ∧
      (e ∈ acc.2 → e ∈ (urls.foldl (scanStep check) acc).2) := by
  intro urls
  induction urls with
  | nil => intro acc x e; exact ⟨id, id⟩
  | cons u rest ih =>
    intro acc x e
    refine ⟨fun hx => ?_, fun he => ?_⟩
    · exact (ih (scanStep check acc u) x e).1 (scanStep_mono_updated check acc u x hx)
    · exact (ih (scanStep check acc u) e.url e).2 (scanStep_mono_log check acc u e he)

theorem scan_records_change (check : String → ChangeResult) :
    ∀ (urls : List String) (acc : ScanResults × List LogEntry) (u : String),
      u ∈ urls → pyTruthyS (check u).error = false → (check u).is_new = false →
      (check u).has_changed = some true →
      u ∈ (urls.foldl (scanStep check) acc).1.updated ∧
      ({ url := u, change_type := "content", old_hash := (check u).old_hash,
         new_hash := (check u).new_hash } : LogEntry) ∈
        (urls.foldl (scanStep check) acc).2 := by
  intro urls
  induction urls with
  | nil => intro acc u hu; simp at hu
  | cons a rest ih =>
    intro acc u hu herr hnew hch
    rcases List.mem_cons.mp hu with hu | hu
    · subst hu
      have hstep : (scanStep check acc u).1.updated = acc.1.updated ++ [u] ∧
          ({ url := u, change_type := "content", old_hash := (check u).old_hash,
             new_hash := (check u).new_hash } : LogEntry) ∈ (scanStep check acc u).2 := by
        simp only [scanStep]
        rw [if_neg (by simp [herr]), if_neg (by simp [hnew]), if_pos hch]
        simp
      refine ⟨?_, ?_⟩
      · exact (scan_foldl_mono check rest (scanStep check acc u) u
          { url := u, change_type := "content", old_hash := (check u).old_hash,
            new_hash := (check u).new_hash }).1 (by rw [hstep.1]; simp)
      · exact (scan_foldl_mono check rest (scanStep check acc u) u
          { url := u, change_type := "content", old_hash := (check u).old_hash,
            new_hash := (check u).new_hash }).2 hstep.2
    · exact ih (scanStep check acc a) u hu herr hnew hch

/-- C4. With a stored hash `H`: if the re-fetched body's stable hash equals
`H` the check reports `has_changed = false` no matter how the `ETag` or
`Last-Modified` headers differ; if a header signal fired and the body's
stable hash `H'` differs from `H`, the check reports `has_changed = true`
with `old_hash = H` and `new_hash = H'`, and `scan_for_changes` appends a
`content` change-log record carrying exactly those hashes. -/
theorem change_detection_hash_rules (calcHash : String → String) (url : String)
    (ex : StoredMeta) (hdr : HeadHeaders) (content : String) :
    (calcHash content = ex.content_hash →
      (check_url_changes calcHash url (some ex) (some hdr) (some content)).has_changed =
        some false) ∧
    (signalsOf (some ex) hdr ≠ [] → calcHash content ≠ ex.content_hash →
      (check_url_changes calcHash url (some ex) (some hdr) (some content)).has_changed =
          some true ∧
      (check_url_changes calcHash url (some ex) (some hdr) (some content)).old_hash =
          some ex.content_hash ∧
      (check_url_changes calcHash url (some ex) (some hdr) (some content)).new_hash =
          some (calcHash content)) ∧
    (∀ (stored : String → Option StoredMeta) (heads : String → Option HeadHeaders)
        (bodies : String → Option String) (urls : List String),
      url ∈ urls → stored url = some ex → heads url = some hdr →
      bodies url = some content →
      signalsOf (some ex) hdr ≠ [] → calcHash content ≠ ex.content_hash →
      url ∈ (scan_for_changes
        (fun u => check_url_changes calcHash u (stored u) (heads u) (bodies u))
        urls).1.updated ∧
      ({ url := url, change_type := "content", old_hash := some ex.content_hash,
         new_hash := some (calcHash content) } : LogEntry) ∈
        (scan_for_changes
          (fun u => check_url_changes calcHash u (stored u) (heads u) (bodies u))
          urls).2) := by
  refine ⟨check_unchanged_of_hash_eq calcHash url ex hdr content, ?_, ?_⟩
  · intro hsig hne
    obtain ⟨h1, h2, h3, _, _⟩ := check_changed_fields calcHash url ex hdr content hsig hne
    exact ⟨h1, h2, h3⟩
  · intro stored heads bodies urls hu hst hhd hbd hsig hne
    obtain ⟨h1, h2, h3, h4, h5⟩ := check_changed_fields calcHash url ex hdr content hsig hne
    have hcheck : (fun u => check_url_changes calcHash u (stored u) (heads u) (bodies u)) url =
        check_url_changes calcHash url (some ex) (some hdr) (some content) := by
      simp [hst, hhd, hbd]
    have := scan_records_change
      (fun u => check_url_changes calcHash u (stored u) (heads u) (bodies u))
      urls (⟨[], [], [], []⟩, []) url hu
      (by rw [hcheck, h4]; rfl) (by rw [hcheck]; exact h5) (by rw [hcheck]; exact h1)
    rw [hcheck, h2, h3] at this
    exact this

/-- Witness for C4 on concrete data: an `ETag`-only difference with an
unchanged normalised body is reported unchanged; a changed body is reported
changed and logged with the old and new hashes. -/
theorem change_detection_hash_rules_witness :
    (check_url_changes id "u" (some ⟨"c", none, some "e1", none⟩)
        (some ⟨some "e2", none, none⟩) (some "c")).has_changed = some false ∧
    signalsOf (some ⟨"H", none, some "e1", none⟩) ⟨some "e2", none, none⟩ ≠ [] ∧
    (check_url_changes id "u" (some ⟨"H", none, some "e1", none⟩)
        (some ⟨some "e2", none, none⟩) (some "c")).has_changed = some true ∧
    (check_url_changes id "u" (some ⟨"H", none, some "e1", none⟩)
        (some ⟨some "e2", none, none⟩) (some "c")).old_hash = some "H" ∧
    (check_url_changes id "u" (some ⟨"H", none, some "e1", none⟩)
        (some ⟨some "e2", none, none⟩) (some "c")).new_hash = some "c" ∧
    "u" ∈ (scan_for_changes
      (fun u => check_url_changes id u (some ⟨"H", none, some "e1", none⟩)
        (some ⟨some "e2", none, none⟩) (some "c")) ["u"]).1.updated ∧
    ({ url := "u", change_type := "content", old_hash := some "H",
       new_hash := some "c" } : LogEntry) ∈
      (scan_for_changes
        (fun u => check_url_changes id u (some ⟨"H", none, some "e1", none⟩)
          (some ⟨some "e2", none, none⟩) (some "c")) ["u"]).2 := by
  have h1 := (change_detection_hash_rules id "u" ⟨"c", none, some "e1", none⟩
    ⟨some "e2", none, none⟩ "c").1 (by decide)
  have h2 := (change_detection_hash_rules id "u" ⟨"H", none, some "e1", none⟩
    ⟨some "e2", none, none⟩ "c").2.1 (by decide) (by decide)
  have h3 := (change_detection_hash_rules id "u" ⟨"H", none, some "e1", none⟩
    ⟨some "e2", none, none⟩ "c").2.2
    (fun _ => some ⟨"H", none, some "e1", none⟩)
    (fun _ => some ⟨some "e2", none, none⟩)
    (fun _ => some "c") ["u"] (by decide) rfl rfl rfl (by decide) (by decide)
  exact ⟨h1, by decide, h2.1, h2.2.1, h2.2.2, h3.1, h3.2⟩

end DocsAI.Updater

namespace DocsAI.Manager

/-- C9 counterexample: the registry holds a single global active-task slot,
not one per profile.  Starting ingestion for profile `A`, then for profile
`B` (which takes over the slot), then for `A` again creates a second task
for `A` while its first task is still non-terminal: two non-terminal tasks
for the same profile coexist and the third call returns a fresh identifier
instead of the first task's. -/
theorem one_task_per_profile_cex :
    nonTerminalCount
      (start_ingestion (start_ingestion (start_ingestion emptyManager "A").2 "B").2 "A").2
      "A" = 2 ∧
    (start_ingestion (start_ingestion (start_ingestion emptyManager "A").2 "B").2 "A").1 ≠
      (start_ingestion emptyManager "A").1 := by
  decide

/-- C9 (amended): when the single global active task belongs to the
requested profile and is non-terminal, `start_ingestion` returns that task's
identifier and leaves the registry unchanged (no new task); but the
invariant is only about the one active slot: interleaving starts for
different profiles can leave several non-terminal tasks for one profile. -/
theorem one_task_per_profile (m : IngestionManager) (profile i : String) (t : IngTask)
    (hactive : m.active_task = some i) (hlookup : m.tasks.lookup i = some t)
    (hprof : t.profile_name = profile) (hterm : t.status ∉ terminalStatuses) :
    start_ingestion m profile = (t.id, m) := by
  simp only [start_ingestion, hactive, Option.some_bind, hlookup]
  rw [if_pos ⟨hprof, hterm⟩]

/-- Witness for the amended C9 theorem: a registry whose active task is a
processing task of profile `A` returns the same identifier and state. -/
theorem one_task_per_profile_witness :
    sampleManager.active_task = some "task-0" ∧
    start_ingestion sampleManager "A" = ("task-0", sampleManager) :=
  ⟨rfl,
    one_task_per_profile sampleManager "A" "task-0"
      { id := "task-0", profile_name := "A", status := .processing }
      rfl rfl rfl (by decide)⟩

end DocsAI.Manager

namespace DocsAI.Crawl

theorem lookup_mem {β : Type} (k : String) (v : β) :
    ∀ l : List (String × β), l.lookup k = some v → (k, v) ∈ l := by
  intro l
  induction l with
  | nil => intro h; simp [List.lookup] at h
  | cons a l ih =>
    obtain ⟨a1, a2⟩ := a
    intro h
    rw [List.lookup] at h
    by_cases hk : k == a1
    · simp only [hk] at h
      injection h with h
      have hk' : k = a1 := by simpa using hk
      subst hk'
      rw [h]
      exact List.mem_cons_self _ _
    · simp only [Bool.not_eq_true] at hk
      simp only [hk] at h
      exact List.mem_cons_of_mem _ (ih h)

theorem lookup_append_isSome {β : Type} (k : String) (l1 l2 : List (String × β))
    (h : (l1.lookup k).isSome) : (l1 ++ l2).lookup k = l1.lookup k := by
  induction l1 with
  | nil => simp [List.lookup] at h
  | cons a l1 ih =>
    obtain ⟨a1, a2⟩ := a
    rw [List.cons_append, List.lookup, List.lookup]
    by_cases hk : k == a1
    · simp only [hk]
    · simp only [Bool.not_eq_true] at hk
      simp only [hk]
      refine ih ?_
      rw [List.lookup] at h
      simp only [hk] at h
      exact h

theorem lookup_append_none {β : Type} (k : String) (l1 l2 : List (String × β))
    (h : l1.lookup k = none) : (l1 ++ l2).lookup k = l2.lookup k := by
  induction l1 with
  | nil => simp
  | cons a l1 ih =>
    obtain ⟨a1, a2⟩ := a
    rw [List.lookup] at h
    rw [List.cons_append, List.lookup]
    by_cases hk : k == a1
    · simp only [hk] at h
      exact Option.noConfusion h
    · simp only [Bool.not_eq_true] at hk
      simp only [hk] at h ⊢
      exact ih h

theorem lookup_singleton {β : Type} (k : String) (v : β) :
    ([(k, v)] : List (String × β)).lookup k = some v := by
  simp [List.lookup]

theorem fill_hit (env : CrawlEnv) (st : CrawlSt) (k : String)
    (h : (st.robotsCache.lookup k).isSome) : robotsCacheFill env st k = st := by
  simp only [robotsCacheFill, if_pos h]

theorem fill_miss_cache (env : CrawlEnv) (st : CrawlSt) (k : String)
    (h : st.robotsCache.lookup k = none) :
    (robotsCacheFill env st k).robotsCache =
      st.robotsCache ++ [(k, robotsOracle env k)] := by
  have h' : ¬ (st.robotsCache.lookup k).isSome := by simp [h]
  cases hf : env.fetch (k ++ "/robots.txt") with
  | none => simp only [robotsCacheFill, if_neg h', robotsOracle, hf]
  | some r =>
    by_cases hc : r.status = 200 ∧ pyIn "text/html" r.contentType = false
    · simp only [robotsCacheFill, if_neg h', robotsOracle, hf, if_pos hc]
    · simp only [robotsCacheFill, if_neg h', robotsOracle, hf, if_neg hc]

theorem fill_miss_robotsFetched (env : CrawlEnv) (st : CrawlSt) (k : String)
    (h : st.robotsCache.lookup k = none) :
    (robotsCacheFill env st k).robotsFetched =
      st.robotsFetched ++ [k ++ "/robots.txt"] := by
  have h' : ¬ (st.robotsCache.lookup k).isSome := by simp [h]
  cases hf : env.fetch (k ++ "/robots.txt") with
  | none => simp only [robotsCacheFill, if_neg h', hf]
  | some r =>
    by_cases hc : r.status = 200 ∧ pyIn "text/html" r.contentType = false
    · simp only [robotsCacheFill, if_neg h', hf, if_pos hc]
    · simp only [robotsCacheFill, if_neg h', hf, if_neg hc]

theorem fill_fields (env : CrawlEnv) (st : CrawlSt) (k : String) :
    (robotsCacheFill env st k).cacheW = st.cacheW ∧
    (robotsCacheFill env st k).seen = st.seen ∧
    (robotsCacheFill env st k).out = st.out ∧
    (robotsCacheFill env st k).frontier = st.frontier ∧
    (robotsCacheFill env st k).fetched = st.fetched := by
  by_cases h : (st.robotsCache.lookup k).isSome
  · simp only [robotsCacheFill, if_pos h]
    simp
  · cases hf : env.fetch (k ++ "/robots.txt") with
    | none =>
      simp only [robotsCacheFill, if_neg h, hf]
      simp
    | some r =>
      by_cases hc : r.status = 200 ∧ pyIn "text/html" r.contentType = false
      · simp only [robotsCacheFill, if_neg h, hf, if_pos hc]
        simp
      · simp only [robotsCacheFill, if_neg h, hf, if_neg hc]
        simp

theorem fill_consistent (env : CrawlEnv) (st : CrawlSt) (k : String)
    (hc : RCConsistent env st.robotsCache) :
    RCConsistent env (robotsCacheFill env st k).robotsCache := by
  rcases h : st.robotsCache.lookup k with _ | v
  · rw [fill_miss_cache env st k h]
    intro k' v' hmem
    rcases List.mem_append.mp hmem with hm | hm
    · exact hc k' v' hm
    · rw [List.mem_singleton] at hm
      injection hm with h1 h2
      rw [h2, h1]
  · rw [fill_hit env st k (by simp [h])]
    exact hc

theorem fill_lookup (env : CrawlEnv) (st : CrawlSt) (k : String)
    (hc : RCConsistent env st.robotsCache) :
    ((robotsCacheFill env st k).robotsCache.lookup k) = some (robotsOracle env k) := by
  rcases h : st.robotsCache.lookup k with _ | v
  · rw [fill_miss_cache env st k h, lookup_append_none k _ _ h, lookup_singleton]
  · rw [fill_hit env st k (by simp [h]), h]
    rw [hc k v (lookup_mem k v _ h)]

theorem fill_lookup_isSome (env : CrawlEnv) (st : CrawlSt) (k : String)
    (h : st.robotsCache.lookup k = none) :
    ((robotsCacheFill env st k).robotsCache.lookup k).isSome := by
  rw [fill_miss_cache env st k h, lookup_append_none k _ _ h, lookup_singleton]
  rfl

theorem fill_cache_mono (env : CrawlEnv) (st : CrawlSt) (k k' : String)
    (h : ((st.robotsCache.lookup k').isSome)) :
    ((robotsCacheFill env st k).robotsCache.lookup k').isSome := by
  rcases hm : st.robotsCache.lookup k with _ | v
  · rw [fill_miss_cache env st k hm, lookup_append_isSome k' _ _ h]
    exact h
  · rw [fill_hit env st k (by simp [hm])]
    exact h

theorem robots_allowed_eval (env : CrawlEnv) (st : CrawlSt) (base url : String)
    (hc : RCConsistent env st.robotsCache) :
    (robots_allowed env st base url true).1 =
      oracleAllows env (robotsKey env base) url ∧
    RCConsistent env (robots_allowed env st base url true).2.robotsCache := by
  have hnr : ¬ ((true : Bool) = false) := by decide
  have hl := fill_lookup env st (robotsKey env base) hc
  have hcons := fill_consistent env st (robotsKey env base) hc
  simp only [robots_allowed, if_neg hnr]
  cases ho : robotsOracle env (robotsKey env base) with
  | none =>
    rw [ho] at hl
    rw [hl]
    constructor
    · simp [oracleAllows, ho]
    · exact hcons
  | some rp =>
    rw [ho] at hl
    rw [hl]
    constructor
    · simp [oracleAllows, ho]
    · exact hcons

theorem robots_allowed_fields (env : CrawlEnv) (st : CrawlSt) (base url : String)
    (r : Bool) :
    (robots_allowed env st base url r).2.cacheW = st.cacheW ∧
    (robots_allowed env st base url r).2.seen = st.seen ∧
    (robots_allowed env st base url r).2.out = st.out ∧
    (robots_allowed env st base url r).2.frontier = st.frontier ∧
    (robots_allowed env st base url r).2.fetched = st.fetched := by
  simp only [robots_allowed]
  split
  · simp
  · have hf := fill_fields env st (robotsKey env base)
    cases hm : (robotsCacheFill env st (robotsKey env base)).robotsCache.lookup
        (robotsKey env base) with
    | none => simp only [hm]; exact hf
    | some v =>
      cases v with
      | none => simp only [hm]; exact hf
      | some rp => simp only [hm]; exact hf

theorem robots_allowed_cache_eta (env : CrawlEnv) (st : CrawlSt) (base url : String) :
    (robots_allowed env st base url true).2.robotsCache =
      (robotsCacheFill env st (robotsKey env base)).robotsCache ∧
    (robots_allowed env st base url true).2.robotsFetched =
      (robotsCacheFill env st (robotsKey env base)).robotsFetched := by
  have hnr : ¬ ((true : Bool) = false) := by decide
  simp only [robots_allowed, if_neg hnr]
  cases hm : (robotsCacheFill env st (robotsKey env base)).robotsCache.lookup
      (robotsKey env base) with
  | none => simp only [hm]; simp
  | some v =>
    cases v with
    | none => simp only [hm]; simp
    | some rp => simp only [hm]; simp

theorem fetchPage_fetched (env : CrawlEnv) (st : CrawlSt) (u : String) :
    ∀ x ∈ (fetchPage env st u).2.fetched, x ∈ st.fetched ∨ x = u := by
  cases hrc : readCache env st u with
  | some html =>
    simp only [fetchPage, hrc]
    intro x hx
    exact Or.inl hx
  | none =>
    cases hfu : env.fetch u with
    | none =>
      simp only [fetchPage, hrc, hfu]
      intro x hx
      simp only [List.mem_append, List.mem_singleton] at hx
      exact hx
    | some r =>
      by_cases hr : r.status ≠ 200 ∨ pyIn "text/html" r.contentType = false
      · simp only [fetchPage, hrc, hfu, if_pos hr]
        intro x hx
        simp only [List.mem_append, List.mem_singleton] at hx
        exact hx
      · simp only [fetchPage, hrc, hfu, if_neg hr]
        intro x hx
        simp only [List.mem_append, List.mem_singleton] at hx
        exact hx

theorem fetchPage_robots (env : CrawlEnv) (st : CrawlSt) (u : String) :
    (fetchPage env st u).2.robotsCache = st.robotsCache ∧
    (fetchPage env st u).2.robotsFetched = st.robotsFetched := by
  cases hrc : readCache env st u with
  | some html => simp only [fetchPage, hrc]; simp
  | none =>
    cases hfu : env.fetch u with
    | none => simp only [fetchPage, hrc, hfu]; simp
    | some r =>
      by_cases hr : r.status ≠ 200 ∨ pyIn "text/html" r.contentType = false
      · simp only [fetchPage, hrc, hfu, if_pos hr]; simp
      · simp only [fetchPage, hrc, hfu, if_neg hr]; simp

theorem processGated_fetched (env : CrawlEnv) (base : String) (allowed : List String)
    (maxd : Nat) (st2 : CrawlSt) (url : String) (depth : Nat) :
    ∀ x ∈ (processGated env base allowed maxd st2 url depth).fetched,
      x ∈ st2.fetched ∨
      (x = url ∧ (robots_allowed env st2 base url true).1 = true) := by
  have hrrf := (robots_allowed_fields env st2 base url true).2.2.2.2
  cases hrr : (robots_allowed env st2 base url true).1 with
  | false =>
    simp only [processGated, hrr]
    rw [if_pos trivial]
    intro x hx
    rw [hrrf] at hx
    exact Or.inl hx
  | true =>
    simp only [processGated, hrr]
    rw [if_neg (by decide : ¬ ((true : Bool) = false))]
    cases hfp : (fetchPage env (robots_allowed env st2 base url true).2 url).1 with
    | none =>
      simp only [hfp]
      intro x hx
      rcases fetchPage_fetched env (robots_allowed env st2 base url true).2 url x hx
        with h | h
      · rw [hrrf] at h
        exact Or.inl h
      · exact Or.inr ⟨h, trivial⟩
    | some html =>
      simp only [hfp]
      by_cases hd : depth ≥ maxd
      · rw [if_pos hd]
        intro x hx
        have hx' : x ∈ (fetchPage env (robots_allowed env st2 base url true).2 url).2.fetched := hx
        rcases fetchPage_fetched env (robots_allowed env st2 base url true).2 url x hx'
          with h | h
        · rw [hrrf] at h
          exact Or.inl h
        · exact Or.inr ⟨h, trivial⟩
      · rw [if_neg hd]
        intro x hx
        have hx' : x ∈ (fetchPage env (robots_allowed env st2 base url true).2 url).2.fetched := hx
        rcases fetchPage_fetched env (robots_allowed env st2 base url true).2 url x hx'
          with h | h
        · rw [hrrf] at h
          exact Or.inl h
        · exact Or.inr ⟨h, trivial⟩

theorem processGated_robots_eq (env : CrawlEnv) (base : String) (allowed : List String)
    (maxd : Nat) (st2 : CrawlSt) (url : String) (depth : Nat) :
    (processGated env base allowed maxd st2 url depth).robotsCache =
      (robotsCacheFill env st2 (robotsKey env base)).robotsCache ∧
    (processGated env base allowed maxd st2 url depth).robotsFetched =
      (robotsCacheFill env st2 (robotsKey env base)).robotsFetched := by
  have h2 := robots_allowed_cache_eta env st2 base url
  cases hrr : (robots_allowed env st2 base url true).1 with
  | false =>
    simp only [processGated, hrr]
    rw [if_pos trivial]
    exact h2
  | true =>
    simp only [processGated, hrr]
    rw [if_neg (by decide : ¬ ((true : Bool) = false))]
    have h1 := fetchPage_robots env (robots_allowed env st2 base url true).2 url
    cases hfp : (fetchPage env (robots_allowed env st2 base url true).2 url).1 with
    | none =>
      simp only [hfp]
      exact ⟨h1.1.trans h2.1, h1.2.trans h2.2⟩
    | some html =>
      simp only [hfp]
      by_cases hd : depth ≥ maxd
      · rw [if_pos hd]
        exact ⟨h1.1.trans h2.1, h1.2.trans h2.2⟩
      · rw [if_neg hd]
        exact ⟨h1.1.trans h2.1, h1.2.trans h2.2⟩

theorem crawlStep_fetched (env : CrawlEnv) (base : String) (allowed : List String)
    (maxd : Nat) (st : CrawlSt) :
    ∀ u ∈ (crawlStep env base allowed maxd st).fetched,
      u ∈ st.fetched ∨
      (is_allowed_path env u base allowed = true ∧
        ∃ st2 : CrawlSt, st2.robotsCache = st.robotsCache ∧
          (robots_allowed env st2 base u true).1 = true) := by
  cases hfr : st.frontier with
  | nil =>
    simp only [crawlStep, hfr]
    intro u hu
    exact Or.inl hu
  | cons p rest =>
    obtain ⟨url, depth⟩ := p
    simp only [crawlStep, hfr]
    by_cases hseen : url ∈ st.seen
    · rw [if_pos hseen]
      intro u hu
      exact Or.inl hu
    · rw [if_neg hseen]
      by_cases hpath : is_allowed_path env url base allowed = false
      · rw [if_pos hpath]
        intro u hu
        exact Or.inl hu
      · rw [if_neg hpath]
        have hpath' : is_allowed_path env url base allowed = true := by
          rcases Bool.eq_false_or_eq_true (is_allowed_path env url base allowed) with h | h
          · exact h
          · exact absurd h hpath
        intro u hu
        rcases processGated_fetched env base allowed maxd _ url depth u hu with h | ⟨h1, h2⟩
        · exact Or.inl h
        · subst h1
          exact Or.inr ⟨hpath',
            { st with frontier := rest, seen := st.seen ++ [u] }, rfl, h2⟩

theorem crawlStep_consistent (env : CrawlEnv) (base : String) (allowed : List String)
    (maxd : Nat) (st : CrawlSt) (hc : RCConsistent env st.robotsCache) :
    RCConsistent env (crawlStep env base allowed maxd st).robotsCache := by
  cases hfr : st.frontier with
  | nil =>
    simp only [crawlStep, hfr]
    exact hc
  | cons p rest =>
    obtain ⟨url, depth⟩ := p
    simp only [crawlStep, hfr]
    by_cases hseen : url ∈ st.seen
    · rw [if_pos hseen]
      exact hc
    · rw [if_neg hseen]
      by_cases hpath : is_allowed_path env url base allowed = false
      · rw [if_pos hpath]
        exact hc
      · rw [if_neg hpath]
        rw [(processGated_robots_eq env base allowed maxd _ url depth).1]
        exact fill_consistent env _ (robotsKey env base) hc

theorem crawlStep_cache_mono (env : CrawlEnv) (base : String) (allowed : List String)
    (maxd : Nat) (st : CrawlSt) (k : String)
    (h : (st.robotsCache.lookup k).isSome) :
    ((crawlStep env base allowed maxd st).robotsCache.lookup k).isSome := by
  cases hfr : st.frontier with
  | nil =>
    simp only [crawlStep, hfr]
    exact h
  | cons p rest =>
    obtain ⟨url, depth⟩ := p
    simp only [crawlStep, hfr]
    by_cases hseen : url ∈ st.seen
    · rw [if_pos hseen]
      exact h
    · rw [if_neg hseen]
      by_cases hpath : is_allowed_path env url base allowed = false
      · rw [if_pos hpath]
        exact h
      · rw [if_neg hpath]
        rw [(processGated_robots_eq env base allowed maxd _ url depth).1]
        exact fill_cache_mono env _ (robotsKey env base) k h

theorem crawlStep_robotsFetched (env : CrawlEnv) (base : String) (allowed : List String)
    (maxd : Nat) (st : CrawlSt) :
    (crawlStep env base allowed maxd st).robotsFetched = st.robotsFetched ∨
    ((crawlStep env base allowed maxd st).robotsFetched =
        st.robotsFetched ++ [robotsKey env base ++ "/robots.txt"] ∧
      st.robotsCache.lookup (robotsKey env base) = none ∧
      ((crawlStep env base allowed maxd st).robotsCache.lookup
        (robotsKey env base)).isSome) := by
  cases hfr : st.frontier with
  | nil =>
    simp only [crawlStep, hfr]
    exact Or.inl trivial
  | cons p rest =>
    obtain ⟨url, depth⟩ := p
    simp only [crawlStep, hfr]
    by_cases hseen : url ∈ st.seen
    · rw [if_pos hseen]
      exact Or.inl rfl
    · rw [if_neg hseen]
      by_cases hpath : is_allowed_path env url base allowed = false
      · rw [if_pos hpath]
        exact Or.inl rfl
      · rw [if_neg hpath]
        have hpg := processGated_robots_eq env base allowed maxd
          { st with frontier := rest, seen := st.seen ++ [url] } url depth
        by_cases hk : (st.robotsCache.lookup (robotsKey env base)).isSome
        · left
          rw [hpg.2,
            fill_hit env { st with frontier := rest, seen := st.seen ++ [url] }
              (robotsKey env base) hk]
        · right
          have hnone : st.robotsCache.lookup (robotsKey env base) = none := by
            rcases hm : st.robotsCache.lookup (robotsKey env base) with _ | v
            · rfl
            · exact absurd (by simp [hm]) hk
          refine ⟨?_, hnone, ?_⟩
          · rw [hpg.2,
              fill_miss_robotsFetched env
                { st with frontier := rest, seen := st.seen ++ [url] }
                (robotsKey env base) hnone]
          · rw [hpg.1]
            exact fill_lookup_isSome env
              { st with frontier := rest, seen := st.seen ++ [url] }
              (robotsKey env base) hnone

theorem crawlLoop_inv (env : CrawlEnv) (base : String) (allowed : List String)
    (maxd : Nat) (P : CrawlSt → Prop)
    (hstep : ∀ st, P st → P (crawlStep env base allowed maxd st)) :
    ∀ fuel st, P st → P (crawlLoop env base allowed maxd fuel st) := by
  intro fuel
  induction fuel with
  | zero => intro st h; exact h
  | succ fuel ih =>
    intro st h
    rw [crawlLoop]
    split
    · exact h
    · exact ih _ (hstep st h)

/-- C2. Every URL for which `crawl_website` issues an HTTP page fetch passed
the path gate at dequeue time: its network host equals the start URL's host
and, unless the allowed-prefix list is empty (which admits every path on
that host), its path starts with one of the allowed prefixes.  The
hypothesis states that reparsing `scheme://netloc` reproduces the host, a
property of `urllib.parse.urlparse`. -/
theorem crawler_fetch_gate (env : CrawlEnv) (start_url : String)
    (allowed_paths : List String) (max_depth : Nat)
    (rc0 : List (String × Option (String → Bool))) (fuel : Nat)
    (hbase : (env.urlparse (baseDomain env start_url)).netloc =
      (env.urlparse start_url).netloc) :
    ∀ u ∈ (crawl_website env start_url allowed_paths max_depth rc0 fuel).fetched,
      (env.urlparse u).netloc = (env.urlparse start_url).netloc ∧
      (allowed_paths = [] ∨ ∃ p ∈ allowed_paths,
        pyStartsWith
          (if (env.urlparse u).path = "" then "/" else (env.urlparse u).path)
          p = true) := by
  have hinv := crawlLoop_inv env (baseDomain env start_url) allowed_paths max_depth
    (fun st => ∀ u ∈ st.fetched,
      is_allowed_path env u (baseDomain env start_url) allowed_paths = true)
    (fun st h => by
      intro u hu
      rcases crawlStep_fetched env (baseDomain env start_url) allowed_paths max_depth
        st u hu with h' | ⟨h', _⟩
      · exact h u h'
      · exact h')
    fuel (initSt start_url rc0)
    (by intro u hu; simp [initSt] at hu)
  intro u hu
  have hgate := hinv u hu
  simp only [is_allowed_path] at hgate
  by_cases hnet : (env.urlparse u).netloc ≠ (env.urlparse (baseDomain env start_url)).netloc
  · rw [if_pos hnet] at hgate
    exact absurd hgate (by simp)
  · have hnet' : (env.urlparse u).netloc = (env.urlparse start_url).netloc :=
      (not_ne_iff.mp hnet).trans hbase
    refine ⟨hnet', ?_⟩
    rw [if_neg hnet] at hgate
    by_cases hempty : allowed_paths = []
    · exact Or.inl hempty
    · rw [if_neg hempty] at hgate
      right
      rcases List.any_eq_true.mp hgate with ⟨p, hp, hps⟩
      exact ⟨p, hp, hps⟩

/-- Witness for C2: on a one-page host `h`, the start URL is fetched and the
gate conclusion holds for it. -/
theorem crawler_fetch_gate_witness :
    "http://h/a" ∈ (crawl_website simpleEnv "http://h/a" [] 1 [] 2).fetched ∧
    ((simpleEnv.urlparse "http://h/a").netloc =
        (simpleEnv.urlparse "http://h/a").netloc ∧
      (([] : List String) = [] ∨ ∃ p ∈ ([] : List String),
        pyStartsWith
          (if (simpleEnv.urlparse "http://h/a").path = "" then "/"
            else (simpleEnv.urlparse "http://h/a").path) p = true)) :=
  ⟨by decide,
    crawler_fetch_gate simpleEnv "http://h/a" [] 1 [] 2 (by decide)
      "http://h/a" (by decide)⟩

/-- C3 counterexample: a `200 text/plain` robots.txt response — a
non-text-HTML response — is parsed as real robots rules rather than treated
as "no restrictions": with a robots.txt disallowing `/b`, the robots gate
rejects `http://h/b`, so not every URL on the host is permitted. -/
theorem robots_nontext_html_cex :
    robotsEnv.fetch (robotsKey robotsEnv (baseDomain robotsEnv "http://h/a") ++
        "/robots.txt") =
      some { status := 200, contentType := "text/plain", body := robotsBody } ∧
    pyIn "text/html" "text/plain" = false ∧
    (robots_allowed robotsEnv (initSt "http://h/a" [])
      (baseDomain robotsEnv "http://h/a") "http://h/b" true).1 = false :=
  ⟨by decide, by decide, by decide⟩

/-- C3 (amended). During one crawl with a fresh process cache, robots.txt is
fetched at most once for the host; a robots fetch failure, non-200 status or
a response whose `Content-Type` contains `text/html` yields "no
restrictions" (the robots gate passes for every URL); a successfully parsed
(200, non-HTML) robots.txt that disallows a URL causes that URL never to be
fetched, while URLs the parsed rules allow still pass the robots gate
unaffected. -/
theorem robots_caching_rules (env : CrawlEnv) (start_url : String)
    (allowed_paths : List String) (max_depth : Nat) (fuel : Nat) (url : String) :
    ((crawl_website env start_url allowed_paths max_depth [] fuel).robotsFetched.length ≤ 1) ∧
    ((env.fetch (robotsKey env (baseDomain env start_url) ++ "/robots.txt") = none ∨
      (∃ r, env.fetch (robotsKey env (baseDomain env start_url) ++ "/robots.txt") =
          some r ∧ (r.status ≠ 200 ∨ pyIn "text/html" r.contentType = true))) →
      ∀ st : CrawlSt, RCConsistent env st.robotsCache →
        (robots_allowed env st (baseDomain env start_url) url true).1 = true) ∧
    (∀ r, env.fetch (robotsKey env (baseDomain env start_url) ++ "/robots.txt") = some r →
      r.status = 200 → pyIn "text/html" r.contentType = false →
      env.robotRules r.body url = false →
      url ∉ (crawl_website env start_url allowed_paths max_depth [] fuel).fetched) ∧
    (∀ r, env.fetch (robotsKey env (baseDomain env start_url) ++ "/robots.txt") = some r →
      r.status = 200 → pyIn "text/html" r.contentType = false →
      env.robotRules r.body url = true →
      ∀ st : CrawlSt, RCConsistent env st.robotsCache →
        (robots_allowed env st (baseDomain env start_url) url true).1 = true) := by
  refine ⟨?_, ?_, ?_, ?_⟩
  · have hinv := crawlLoop_inv env (baseDomain env start_url) allowed_paths max_depth
      (fun st => st.robotsFetched.length ≤ 1 ∧
        (st.robotsFetched ≠ [] →
          ((st.robotsCache.lookup (robotsKey env (baseDomain env start_url))).isSome)))
      (fun st h => by
        rcases crawlStep_robotsFetched env (baseDomain env start_url) allowed_paths
          max_depth st with h1 | ⟨h1, h2, h3⟩
        · refine ⟨by rw [h1]; exact h.1, ?_⟩
          intro hne
          rw [h1] at hne
          exact crawlStep_cache_mono env (baseDomain env start_url) allowed_paths
            max_depth st _ (h.2 hne)
        · refine ⟨?_, fun _ => h3⟩
          have hrf0 : st.robotsFetched = [] := by
            by_contra hne
            have hsome := h.2 hne
            simp [h2] at hsome
          rw [h1, hrf0]
          simp)
      fuel (initSt start_url [])
      ⟨by simp [initSt], by simp [initSt]⟩
    exact hinv.1
  · intro hyp st hc
    rw [(robots_allowed_eval env st (baseDomain env start_url) url hc).1]
    rcases hyp with h | ⟨r, hr, hcond⟩
    · simp [oracleAllows, robotsOracle, h]
    · have hnc : ¬ (r.status = 200 ∧ pyIn "text/html" r.contentType = false) := by
        rintro ⟨hs, hp⟩
        rcases hcond with hc' | hc'
        · exact hc' hs
        · simp [hp] at hc'
      simp [oracleAllows, robotsOracle, hr, hnc]
  · intro r hr hs hp hrule hmem
    have hinv := crawlLoop_inv env (baseDomain env start_url) allowed_paths max_depth
      (fun st => RCConsistent env st.robotsCache ∧
        ∀ u' ∈ st.fetched,
          oracleAllows env (robotsKey env (baseDomain env start_url)) u' = true)
      (fun st h => by
        refine ⟨crawlStep_consistent env (baseDomain env start_url) allowed_paths
          max_depth st h.1, ?_⟩
        intro u' hu'
        rcases crawlStep_fetched env (baseDomain env start_url) allowed_paths max_depth
          st u' hu' with h' | ⟨_, st2, hrc, hrob⟩
        · exact h.2 u' h'
        · have hc2 : RCConsistent env st2.robotsCache := by rw [hrc]; exact h.1
          have heval := (robots_allowed_eval env st2 (baseDomain env start_url) u' hc2).1
          rw [← heval]
          exact hrob)
      fuel (initSt start_url [])
      ⟨by intro k v h; simp [initSt] at h, by intro u' h; simp [initSt] at h⟩
    have hall := hinv.2 url hmem
    have hfalse : oracleAllows env (robotsKey env (baseDomain env start_url)) url = false := by
      simp [oracleAllows, robotsOracle, hr, hs, hp, hrule]
    rw [hall] at hfalse
    exact Bool.noConfusion hfalse
  · intro r hr hs hp hrule st hc
    rw [(robots_allowed_eval env st (baseDomain env start_url) url hc).1]
    simp [oracleAllows, robotsOracle, hr, hs, hp, hrule]

/-- Witness for the amended C3 theorem: on the `robotsEnv` host the crawl
fetches robots.txt at most once, a 404 robots response (on `simpleEnv`)
permits every URL, the disallowed `http://h/b` is never fetched, and the
allowed `http://h/a` passes the robots gate. -/
theorem robots_caching_rules_witness :
    ((crawl_website robotsEnv "http://h/a" [] 1 [] 2).robotsFetched.length ≤ 1) ∧
    (robots_allowed simpleEnv (initSt "x" [])
      (baseDomain simpleEnv "http://h/a") "http://h/a" true).1 = true ∧
    "http://h/b" ∉ (crawl_website robotsEnv "http://h/a" [] 1 [] 2).fetched ∧
    (robots_allowed robotsEnv (initSt "x" [])
      (baseDomain robotsEnv "http://h/a") "http://h/a" true).1 = true :=
  ⟨(robots_caching_rules robotsEnv "http://h/a" [] 1 2 "http://h/a").1,
    (robots_caching_rules simpleEnv "http://h/a" [] 1 2 "http://h/a").2.1
      (Or.inr ⟨{ status := 404, contentType := "text/plain", body := "" },
        by decide, Or.inl (by decide)⟩)
      (initSt "x" []) (by intro k v h; simp [initSt] at h),
    (robots_caching_rules robotsEnv "http://h/a" [] 1 2 "http://h/b").2.2.1
      { status := 200, contentType := "text/plain", body := robotsBody }
      (by decide) rfl (by decide) (by decide),
    (robots_caching_rules robotsEnv "http://h/a" [] 1 2 "http://h/a").2.2.2
      { status := 200, contentType := "text/plain", body := robotsBody }
      (by decide) rfl (by decide) (by decide)
      (initSt "x" []) (by intro k v h; simp [initSt] at h)⟩

end DocsAI.Crawl
